import Mathlib

/-!
Verification of the workflow-generator core: the workflow data model and its
construction-time validation (`workflow_schema.py`), the dependency-layering
algorithm `WorkflowSchema.get_execution_order`, the keyword step classifier and
registry operation `create_workflow_from_tasks` (`workflow_manager.py`), and the
emission sequencing of `WorkflowGenerator.generate_workflow_files`
(`workflow_generator.py`).

Python strings are Lean `String`s, Python `None`/optional values are `Option`,
Python exceptions raised during construction are `Except` errors.  Fields of the
pydantic models whose type is `Any`/`Dict[str, Any]` and that no modelled
operation ever reads or writes with a non-string value are represented at the
types actually used by the repository (noted at each structure).
-/

/-- Substring test, mirroring the Python expression `sub in s` on strings. -/
def containsSub (s sub : String) : Bool :=
  decide (sub.toList <:+: s.toList)

/-- Helper for `pyTitle`: the Boolean records whether the previous character was
alphabetic (Python: cased). -/
def pyTitleAux : Bool → List Char → List Char
  | _, [] => []
  | prevAlpha, c :: cs =>
    if c.isAlpha then
      (if prevAlpha then c.toLower else c.toUpper) :: pyTitleAux true cs
    else
      c :: pyTitleAux false cs

/-- Python `str.title()`: first character of every alphabetic run upper-cased,
the rest of the run lower-cased. -/
def pyTitle (s : String) : String :=
  ⟨pyTitleAux false s.toList⟩

/-- Helper for `pySplit`: accumulate the current word (reversed) while
scanning. -/
def pySplitList : List Char → List Char → List String
  | [], acc => if acc.isEmpty then [] else [⟨acc.reverse⟩]
  | c :: cs, acc =>
    if c.isWhitespace then
      if acc.isEmpty then pySplitList cs []
      else (⟨acc.reverse⟩ : String) :: pySplitList cs []
    else
      pySplitList cs (c :: acc)

/-- Python `str.split()` with no argument: split on whitespace runs, dropping
empty pieces. -/
def pySplit (s : String) : List String :=
  pySplitList s.toList []

/-- Python `str.lower()` (character-wise lower-casing). -/
def strToLower (s : String) : String :=
  ⟨s.toList.map Char.toLower⟩

/-- Helper for `strReplace`: replace every non-overlapping occurrence of `old`
(non-empty in all uses by this repository), scanning left to right.  The fuel
argument (initialised to the list length, which bounds the number of steps
because a match consumes at least one character) makes the recursion
structural. -/
def replaceAux (old new : List Char) : Nat → List Char → List Char
  | _, [] => []
  | 0, l => l
  | fuel + 1, c :: cs =>
    if old ≠ [] ∧ old <+: (c :: cs) then
      new ++ replaceAux old new fuel ((c :: cs).drop old.length)
    else
      c :: replaceAux old new fuel cs

/-- Python `str.replace(old, new)`. -/
def strReplace (s old new : String) : String :=
  ⟨replaceAux old.toList new.toList s.toList.length s.toList⟩

/-- Helper for `strSplitOnChar`: split at every occurrence of `sep`, keeping
empty pieces. -/
def splitOnCharAux (sep : Char) : List Char → List Char → List String
  | [], acc => [⟨acc.reverse⟩]
  | c :: cs, acc =>
    if c = sep then (⟨acc.reverse⟩ : String) :: splitOnCharAux sep cs []
    else splitOnCharAux sep cs (c :: acc)

/-- Python `str.split(sep)` for a one-character separator (the only form the
repository uses, for `split("_")`). -/
def strSplitOnChar (sep : Char) (s : String) : List String :=
  splitOnCharAux sep s.toList []

/-- Python `dict` insertion `d[k] = v` on an association list: overwrite in
place if the key exists (keeping its position), else append. -/
def dictInsert {β : Type} (d : List (String × β)) (k : String) (v : β) :
    List (String × β) :=
  if k ∈ d.map Prod.fst then
    d.map (fun p => if p.1 = k then (k, v) else p)
  else
    d ++ [(k, v)]

/-- Python truthiness of an optional string: `None` and `""` are falsy. -/
def optionTruthy (o : Option String) : Option String :=
  match o with
  | some s => if s.isEmpty then none else some s
  | none => none

/-- `ParameterType` enum of `workflow_schema.py` (string values "string",
"number", "boolean", "file", "select", "multiselect", "textarea", "json",
"date", "url", "email"). -/
inductive ParameterType
  | string
  | number
  | boolean
  | file
  | select
  | multiselect
  | textarea
  | json
  | date
  | url
  | email
deriving DecidableEq, Repr

/-- `StepType` enum of `workflow_schema.py`. -/
inductive StepType
  | form_input
  | llm_processing
  | file_processing
  | http_request
  | data_transformation
  | code_execution
  | output_generation
  | conditional
  | loop
  | parallel
deriving DecidableEq, Repr

/-- Rule kind of `ValidationRule.type` (`Literal["required","min","max","pattern","custom"]`). -/
inductive RuleKind
  | required
  | min
  | max
  | pattern
  | custom
deriving DecidableEq, Repr

/-- `ValidationRule` model.  The `value` field is `Optional[Union[str, int, float]]`
in the source; the repository only ever stores strings or integers there, so it
is modelled as `Option (String ⊕ Int)`. -/
structure ValidationRule where
  type : RuleKind
  value : Option (String ⊕ Int) := none
  message : String
deriving DecidableEq, Repr

/-- `ParameterDefinition` model.  `default` is `Optional[Any]` and `options` is
`Optional[List[Union[str, Dict[str, Any]]]]` in the source; every value the
repository puts in them is a string (resp. a list of strings), so they are
modelled at those types.  The `depends_on : Optional[Dict[str, Any]]`
conditional-visibility field is never read or written by any modelled operation
and is omitted. -/
structure ParameterDefinition where
  name : String
  type : ParameterType
  label : Option String := none
  description : Option String := none
  required : Bool := false
  default : Option String := none
  options : Option (List String) := none
  validation : Option (List ValidationRule) := none
  placeholder : Option String := none
  help_text : Option String := none
deriving DecidableEq, Repr

/-- `response_format` of `LLMConfiguration` (`Literal["text","json","structured"]`). -/
inductive ResponseFormat
  | text
  | json
  | structured
deriving DecidableEq, Repr

/-- `LLMConfiguration` model.  `temperature : Optional[float]` and
`response_schema : Optional[Dict[str, Any]]` are never set by the repository
and are omitted (floating point is not modelled). -/
structure LLMConfiguration where
  template_name : Option String := none
  system_prompt : Option String := none
  user_prompt_template : String
  template_variables : Option (List String) := none
  max_tokens : Option Int := none
  response_format : Option ResponseFormat := some ResponseFormat.text
deriving DecidableEq, Repr

/-- `StepDefinition` model.  The `conditional`, `output_mapping`,
`error_handling`, `timeout`, `retry_config` and `ui_config` fields are never
read or written by any modelled operation and are omitted. -/
structure StepDefinition where
  id : String
  name : String
  type : StepType
  description : Option String := none
  depends_on : Option (List String) := none
  parameters : Option (List ParameterDefinition) := none
  llm_config : Option LLMConfiguration := none
  custom_handler : Option String := none
deriving DecidableEq, Repr

/-- `WorkflowMetadata` model. -/
structure WorkflowMetadata where
  id : String
  name : String
  description : Option String := none
  version : String := "1.0.0"
  author : Option String := none
  tags : Option (List String) := none
  category : Option String := none
  icon : Option String := none
  created_at : Option String := none
  updated_at : Option String := none
deriving DecidableEq, Repr

/-- `logging_level` of `WorkflowConfiguration` (`Literal["DEBUG","INFO","WARNING","ERROR"]`). -/
inductive LogLevel
  | debug
  | info
  | warning
  | error
deriving DecidableEq, Repr

/-- `WorkflowConfiguration` model with its pydantic defaults. -/
structure WorkflowConfiguration where
  parallel_execution : Bool := false
  max_parallel_steps : Int := 3
  default_timeout : Int := 300
  auto_advance : Bool := true
  save_intermediate_results : Bool := true
  enable_rollback : Bool := false
  logging_level : LogLevel := LogLevel.info
deriving DecidableEq, Repr

/-- `WorkflowSchema` model.  `global_variables : Optional[Dict[str, Any]]` is
never read or written by any modelled operation and is omitted. -/
structure WorkflowSchema where
  metadata : WorkflowMetadata
  steps : List StepDefinition
  configuration : Option WorkflowConfiguration := some {}
  global_parameters : Option (List ParameterDefinition) := none
deriving DecidableEq, Repr

/-- Errors raised at construction time by the pydantic validators of
`workflow_schema.py`.  `optionsRequired` is the `ValueError` of
`ParameterDefinition.validate_options` ("Options required for ... parameter
type"), `unknownDependency` is the `ValueError` of
`WorkflowSchema.validate_step_dependencies` ("Step ... depends on non-existent
step ..."). -/
inductive SchemaError
  | optionsRequired (t : ParameterType)
  | unknownDependency (stepId missingId : String)
deriving DecidableEq, Repr

/-- `ParameterDefinition.validate_options`: fails iff the parameter type is
select or multiselect and the options value is falsy (`None` or `[]`). -/
def validate_options (t : ParameterType) (v : Option (List String)) :
    Except SchemaError (Option (List String)) :=
  if (t = ParameterType.select ∨ t = ParameterType.multiselect) ∧
      (v = none ∨ v = some []) then
    Except.error (SchemaError.optionsRequired t)
  else
    Except.ok v

/-- Construction of a `ParameterDefinition` through pydantic.  `optionsArg`
models the `options` keyword argument: `none` means the keyword was omitted, in
which case the field takes its default `None` and — because pydantic does not
run validators on defaulted fields (`validate_default` is off in v2; v1 skips
unsupplied fields without `always=True`) — `validate_options` is NOT run;
`some v` means `options=v` was passed explicitly, in which case the validator
runs on `v`.  All other fields are passed through unchanged. -/
def mkParameterDefinition (p : ParameterDefinition)
    (optionsArg : Option (Option (List String))) :
    Except SchemaError ParameterDefinition :=
  match optionsArg with
  | none => Except.ok { p with options := none }
  | some v =>
    match validate_options p.type v with
    | Except.error e => Except.error e
    | Except.ok v' => Except.ok { p with options := v' }

/-- `WorkflowSchema.validate_step_dependencies`: scanning steps in order, fail
on the first dependency id that is not the id of any step in the list. -/
def validate_step_dependencies (steps : List StepDefinition) :
    Except SchemaError (List StepDefinition) :=
  let step_ids := steps.map StepDefinition.id
  match steps.findSome? (fun s =>
      ((s.depends_on.getD []).find? (fun d => decide (d ∉ step_ids))).map
        (fun d => (s.id, d))) with
  | some e => Except.error (SchemaError.unknownDependency e.1 e.2)
  | none => Except.ok steps

/-- Construction of a `WorkflowSchema` through pydantic with `metadata` and
`steps` arguments (as done throughout the repository): the `steps` validator
runs; `configuration` and `global_parameters` take their defaults.  On a
validator failure the exception propagates and no object is produced. -/
def mkWorkflowSchema (metadata : WorkflowMetadata) (steps : List StepDefinition) :
    Except SchemaError WorkflowSchema :=
  match validate_step_dependencies steps with
  | Except.error e => Except.error e
  | Except.ok ss =>
    Except.ok { metadata := metadata, steps := ss }

/-- Dependency graph built by `get_execution_order`: association list from step
id to its dependency list, with Python `dict` key semantics. -/
abbrev DepGraph := List (String × List String)

/-- The dict comprehension `{step.id: step.depends_on or [] for step in self.steps}`
of `get_execution_order`: later duplicate ids overwrite the value but keep the
first key position. -/
def stepGraph (steps : List StepDefinition) : DepGraph :=
  steps.foldl (fun g s => dictInsert g s.id (s.depends_on.getD [])) []

/-- The `ready_steps` comprehension of `get_execution_order`: ids (in dict key
order) not yet processed whose dependencies are all processed. -/
def readySteps (g : DepGraph) (processed : List String) : List String :=
  (g.filter (fun p => decide (p.1 ∉ processed ∧ ∀ d ∈ p.2, d ∈ processed))).map
    Prod.fst

/-- The `while` loop of `get_execution_order`.  While fewer than `nSteps` ids
are processed: if no step is ready the loop raises the circular-dependency
`ValueError` carrying the set of unprocessed ids (modelled as the key-ordered
list); otherwise the ready ids form the next wave and are added to `processed`.
`processed` is a Python `set`; since only ids not in it are ever appended, the
append-based list is an exact model.  The Python loop terminates because every
iteration either raises or strictly grows `processed`; the fuel argument makes
that measure explicit (structural recursion): calls keep the invariant
`nSteps - processed.length ≤ fuel`, under which the fuel-exhausted branch is
unreachable (`execLoop_success` / `execLoop_stall` below never reach it, and
`get_execution_order` always starts with `fuel = nSteps` and `processed = []`,
which satisfies the invariant for every workflow). -/
def execLoop (fuel nSteps : Nat) (g : DepGraph) (processed : List String) :
    Except (List String) (List (List String)) :=
  if processed.length < nSteps then
    match fuel with
    | 0 => Except.ok []
    | fuel + 1 =>
      if readySteps g processed = [] then
        Except.error ((g.map Prod.fst).filter (fun s => decide (s ∉ processed)))
      else
        match execLoop fuel nSteps g (processed ++ readySteps g processed) with
        | Except.error e => Except.error e
        | Except.ok waves => Except.ok (readySteps g processed :: waves)
  else
    Except.ok []

/-- `WorkflowSchema.get_execution_order`: the loop bound is the number of steps
(`len(self.steps)`), the graph is the dict of step ids. -/
def get_execution_order (w : WorkflowSchema) :
    Except (List String) (List (List String)) :=
  execLoop w.steps.length w.steps.length (stepGraph w.steps) []

/-- `llm_keywords` of `WorkflowManager._infer_step_configuration`. -/
def llm_keywords : List String :=
  ["ai", "generate", "analysis", "analyze", "process", "llm", "gpt", "claude",
   "create", "write"]

/-- `input_keywords` of `WorkflowManager._infer_step_configuration`. -/
def input_keywords : List String :=
  ["input", "upload", "file", "data", "schema"]

/-- `execution_keywords` of `WorkflowManager._infer_step_configuration`. -/
def execution_keywords : List String :=
  ["execute", "run", "test", "code"]

/-- `http_keywords` of `WorkflowManager._infer_step_configuration`. -/
def http_keywords : List String :=
  ["crawl", "fetch", "api", "request", "extract", "scrape"]

/-- The `llm_provider` select parameter added for LLM-processing steps. -/
def llmProviderParam : ParameterDefinition :=
  { name := "llm_provider", type := ParameterType.select,
    label := some "LLM Provider", required := true,
    options := some ["openai", "anthropic", "google"],
    default := some "openai" }

/-- The `data_file` parameter added for form-input steps mentioning file/upload. -/
def dataFileParam : ParameterDefinition :=
  { name := "data_file", type := ParameterType.file, label := some "Data File",
    required := true, description := some "Upload the data file to process" }

/-- The `schema_info` parameter added for form-input steps mentioning schema. -/
def schemaInfoParam : ParameterDefinition :=
  { name := "schema_info", type := ParameterType.textarea,
    label := some "Schema Information", required := false,
    placeholder := some "Optional schema information" }

/-- The `page_url` parameter added for HTTP-request steps mentioning url/page/crawl. -/
def pageUrlParam : ParameterDefinition :=
  { name := "page_url", type := ParameterType.url, label := some "Page URL",
    required := true, description := some "URL of the page to process" }

/-- The `input_data` parameter added for generic data-transformation steps. -/
def inputDataParam : ParameterDefinition :=
  { name := "input_data", type := ParameterType.textarea,
    label := some "Input Data", required := false,
    placeholder := some "Enter input data for this step" }

/-- Result quadruple of `_infer_step_configuration`. -/
structure InferredStep where
  step_type : StepType
  parameters : List ParameterDefinition
  llm_config : Option LLMConfiguration
  custom_handler : Option String
deriving DecidableEq, Repr

/-- `WorkflowManager._infer_step_configuration`: lower-case the description,
then check the keyword lists in order (LLM, input, execution, HTTP; `in` is
substring containment); the first matching branch decides the step type,
parameters, LLM configuration and custom handler; no match yields a generic
data-transformation step. -/
def infer_step_configuration (task_desc : String) : InferredStep :=
  let task_lower := strToLower task_desc
  if llm_keywords.any (fun k => containsSub task_lower k) then
    { step_type := StepType.llm_processing,
      parameters := [llmProviderParam],
      llm_config := some
        { user_prompt_template :=
            "Execute the following task: " ++ task_desc ++
              "\n\nInput data: {input_data}",
          template_variables := some ["input_data"],
          response_format := some ResponseFormat.text },
      custom_handler := none }
  else if input_keywords.any (fun k => containsSub task_lower k) then
    { step_type := StepType.form_input,
      parameters :=
        (if containsSub task_lower "file" || containsSub task_lower "upload"
          then [dataFileParam] else []) ++
        (if containsSub task_lower "schema" then [schemaInfoParam] else []),
      llm_config := none,
      custom_handler := none }
  else if execution_keywords.any (fun k => containsSub task_lower k) then
    { step_type := StepType.code_execution,
      parameters := [],
      llm_config := none,
      custom_handler :=
        some ("execute_" ++ (strReplace (strToLower task_desc) " " "_")) }
  else if http_keywords.any (fun k => containsSub task_lower k) then
    { step_type := StepType.http_request,
      parameters :=
        if containsSub task_lower "url" || containsSub task_lower "page" ||
            containsSub task_lower "crawl"
          then [pageUrlParam] else [],
      llm_config := none,
      custom_handler :=
        some ("handle_" ++ (strReplace (strToLower task_desc) " " "_")) }
  else
    { step_type := StepType.data_transformation,
      parameters := [inputDataParam],
      llm_config := none,
      custom_handler := none }

/-- Insertion step for `sortTasks`. -/
def insertSortedTask (p : Int × String) : List (Int × String) → List (Int × String)
  | [] => [p]
  | q :: qs => if p.1 ≤ q.1 then p :: q :: qs else q :: insertSortedTask p qs

/-- Python `sorted(tasks.items())`: the task dict's pairs in ascending key
order (keys of a dict are distinct, so comparison never reaches the values). -/
def sortTasks (tasks : List (Int × String)) : List (Int × String) :=
  tasks.foldr insertSortedTask []

/-- Step construction of the loop body of `create_workflow_from_tasks`: id
`step_{n}`, title-cased name, inferred configuration, default linear
dependency on `step_{n-1}` for n > 1. -/
def buildStep (step_num : Int) (task_desc : String) : StepDefinition :=
  let inf := infer_step_configuration task_desc
  { id := "step_" ++ toString step_num,
    name := pyTitle task_desc,
    type := inf.step_type,
    description := some ("Execute " ++ task_desc),
    depends_on :=
      if step_num > 1 then some ["step_" ++ toString (step_num - 1)] else none,
    parameters := some inf.parameters,
    llm_config := inf.llm_config,
    custom_handler := inf.custom_handler }

/-- Workflow id derivation of `create_workflow_from_tasks`: a falsy
(`None`/empty) id is derived from the name (lower-cased, whitespace-split,
joined with underscores, hyphens replaced) or defaults to `auto_workflow`. -/
def derive_workflow_id (workflow_name workflow_id : Option String) : String :=
  match optionTruthy workflow_id with
  | some wid => wid
  | none =>
    let base :=
      match optionTruthy workflow_name with
      | some n => "_".intercalate (pySplit (strToLower n))
      | none => "_".intercalate ["auto", "workflow"]
    strReplace base "-" "_"

/-- Workflow name derivation of `create_workflow_from_tasks`: a falsy name is
derived from the id by splitting on underscores and title-casing. -/
def derive_workflow_name (workflow_name : Option String) (wid : String) : String :=
  match optionTruthy workflow_name with
  | some n => n
  | none => pyTitle (" ".intercalate (strSplitOnChar '_' wid))

/-- The in-memory `workflows_registry` of `WorkflowManager`. -/
abbrev Registry := List (String × WorkflowSchema)

/-- `WorkflowManager.create_workflow_from_tasks`: derive id and name, classify
each task in ascending key order into a step with a linear default dependency
chain, construct the `WorkflowSchema` (running its validators), and on success
record it in the registry.  A construction failure propagates as an exception
before the registry assignment, leaving the registry unchanged. -/
def create_workflow_from_tasks (registry : Registry) (tasks : List (Int × String))
    (workflow_name workflow_id description : Option String) (category : String) :
    Except SchemaError String × Registry :=
  let wid := derive_workflow_id workflow_name workflow_id
  let wname := derive_workflow_name workflow_name wid
  let steps := (sortTasks tasks).map (fun p => buildStep p.1 p.2)
  let md : WorkflowMetadata :=
    { id := wid, name := wname,
      description :=
        some ((optionTruthy description).getD
          ("Auto-generated workflow for " ++ wname)),
      category := some category,
      version := "1.0.0",
      author := some "Workflow Manager Auto-Generator" }
  match mkWorkflowSchema md steps with
  | Except.error e => (Except.error e, registry)
  | Except.ok w => (Except.ok wid, dictInsert registry wid w)

/-- `WorkflowGenerator.generate_workflow_files`: renders the four artifact
kinds in sequence.  The four per-kind generator methods
(`generate_fastapi_plugin`, `generate_react_component`, `generate_app_config`
plus JSON dump, and the schema `model_dump` JSON dump) are parameters here
because their bodies are template renderings whose text is irrelevant to the
engine's control flow; a Python exception raised by any of them is an
`Except.error`.  The source wraps none of the four calls in `try`/`except`, so
the first failure propagates out of `generate_workflow_files` and the
remaining generators do not run: this is the behaviour under verification. -/
def generate_workflow_files {ε : Type}
    (gen_fastapi_plugin gen_react_component gen_app_config gen_schema_dump :
      WorkflowSchema → Except ε String) (w : WorkflowSchema) :
    Except ε (List (String × String)) :=
  match gen_fastapi_plugin w with
  | Except.error e => Except.error e
  | Except.ok plugin_code =>
    match gen_react_component w with
    | Except.error e => Except.error e
    | Except.ok component_code =>
      match gen_app_config w with
      | Except.error e => Except.error e
      | Except.ok config_json =>
        match gen_schema_dump w with
        | Except.error e => Except.error e
        | Except.ok schema_json =>
          Except.ok
            [(w.metadata.id ++ "_plugin.py", plugin_code),
             (w.metadata.id ++ "_workflow.tsx", component_code),
             (w.metadata.id ++ "_config.json", config_json),
             (w.metadata.id ++ "_schema.json", schema_json)]

/-- Dependency edge of a graph: `a` depends (directly) on `b`. -/
def DepEdge (g : DepGraph) (a b : String) : Prop :=
  ∃ ds, (a, ds) ∈ g ∧ b ∈ ds

/-- A dependency cycle: some step transitively depends on itself. -/
def HasCycle (g : DepGraph) : Prop :=
  ∃ x, Relation.TransGen (DepEdge g) x x

/-- A step id is placeable when it can appear in some wave of a dependency
layering: its entry is in the graph and all its dependencies are placeable. -/
inductive Placeable (g : DepGraph) : String → Prop
  | intro (s : String) (ds : List String) (hmem : (s, ds) ∈ g)
      (hdeps : ∀ d ∈ ds, Placeable g d) : Placeable g s

lemma dictInsert_map_fst {β : Type} (d : List (String × β)) (k : String) (v : β) :
    (dictInsert d k v).map Prod.fst =
      if k ∈ d.map Prod.fst then d.map Prod.fst else d.map Prod.fst ++ [k] := by
  by_cases hc : k ∈ d.map Prod.fst
  · rw [if_pos hc]
    simp only [dictInsert, if_pos hc, List.map_map]
    apply List.map_congr_left
    intro p _
    by_cases hp : p.1 = k <;> simp [hp]
  · rw [if_neg hc]
    simp [dictInsert, hc]

lemma dictInsert_keys_nodup {β : Type} {d : List (String × β)}
    (h : (d.map Prod.fst).Nodup) (k : String) (v : β) :
    ((dictInsert d k v).map Prod.fst).Nodup := by
  rw [dictInsert_map_fst]
  by_cases hc : k ∈ d.map Prod.fst
  · rwa [if_pos hc]
  · rw [if_neg hc]
    rw [List.nodup_append]
    refine ⟨h, List.nodup_singleton k, ?_⟩
    intro a ha hb
    rw [List.mem_singleton] at hb
    exact hc (hb ▸ ha)

lemma mem_dictInsert_map_fst {β : Type} (d : List (String × β)) (k : String)
    (v : β) (x : String) :
    x ∈ (dictInsert d k v).map Prod.fst ↔ x ∈ d.map Prod.fst ∨ x = k := by
  rw [dictInsert_map_fst]
  by_cases hc : k ∈ d.map Prod.fst
  · rw [if_pos hc]
    constructor
    · exact fun h => Or.inl h
    · rintro (h | rfl)
      · exact h
      · exact hc
  · rw [if_neg hc]
    simp

lemma dictInsert_keys_length {β : Type} (d : List (String × β)) (k : String)
    (v : β) :
    ((dictInsert d k v).map Prod.fst).length ≤ (d.map Prod.fst).length + 1 := by
  rw [dictInsert_map_fst]
  by_cases hc : k ∈ d.map Prod.fst
  · rw [if_pos hc]; omega
  · rw [if_neg hc]; simp

lemma stepGraph_go_keys_nodup (steps : List StepDefinition) :
    ∀ g : DepGraph, (g.map Prod.fst).Nodup →
      (((steps.foldl (fun g s => dictInsert g s.id (s.depends_on.getD [])) g)).map
        Prod.fst).Nodup := by
  induction steps with
  | nil => intro g hg; simpa
  | cons s ss ih =>
    intro g hg
    exact ih _ (dictInsert_keys_nodup hg _ _)

lemma stepGraph_keys_nodup (steps : List StepDefinition) :
    ((stepGraph steps).map Prod.fst).Nodup :=
  stepGraph_go_keys_nodup steps [] (by simp)

lemma mem_stepGraph_go (steps : List StepDefinition) :
    ∀ (g : DepGraph) (x : String),
      (x ∈ ((steps.foldl (fun g s => dictInsert g s.id (s.depends_on.getD [])) g)).map
          Prod.fst ↔ x ∈ g.map Prod.fst ∨ ∃ s ∈ steps, s.id = x) := by
  induction steps with
  | nil => intro g x; simp
  | cons s ss ih =>
    intro g x
    rw [List.foldl_cons, ih, mem_dictInsert_map_fst]
    constructor
    · rintro ((h | h) | h)
      · exact Or.inl h
      · exact Or.inr ⟨s, List.mem_cons_self s ss, h.symm⟩
      · obtain ⟨s', hs', hx⟩ := h
        exact Or.inr ⟨s', List.mem_cons_of_mem s hs', hx⟩
    · rintro (h | h)
      · exact Or.inl (Or.inl h)
      · obtain ⟨s', hs', hx⟩ := h
        rcases List.mem_cons.mp hs' with rfl | hs'
        · exact Or.inl (Or.inr hx.symm)
        · exact Or.inr ⟨s', hs', hx⟩

lemma mem_stepGraph_keys (steps : List StepDefinition) (x : String) :
    x ∈ (stepGraph steps).map Prod.fst ↔ ∃ s ∈ steps, s.id = x := by
  rw [stepGraph, mem_stepGraph_go]
  simp

lemma stepGraph_go_length (steps : List StepDefinition) :
    ∀ g : DepGraph,
      (((steps.foldl (fun g s => dictInsert g s.id (s.depends_on.getD [])) g)).map
          Prod.fst).length ≤ (g.map Prod.fst).length + steps.length := by
  induction steps with
  | nil => intro g; simp
  | cons s ss ih =>
    intro g
    rw [List.foldl_cons]
    have h1 := ih (dictInsert g s.id (s.depends_on.getD []))
    have h2 := dictInsert_keys_length g s.id (s.depends_on.getD [])
    simp only [List.length_cons]
    omega

lemma stepGraph_keys_length (steps : List StepDefinition) :
    ((stepGraph steps).map Prod.fst).length ≤ steps.length := by
  have := stepGraph_go_length steps []
  simpa using this

lemma stepGraph_go_eq_of_nodup (steps : List StepDefinition) :
    ∀ g : DepGraph, (∀ s ∈ steps, s.id ∉ g.map Prod.fst) →
      (steps.map StepDefinition.id).Nodup →
      steps.foldl (fun g s => dictInsert g s.id (s.depends_on.getD [])) g =
        g ++ steps.map (fun s => (s.id, s.depends_on.getD [])) := by
  induction steps with
  | nil => intro g _ _; simp
  | cons s ss ih =>
    intro g hfresh hnd
    rw [List.foldl_cons]
    have hins : dictInsert g s.id (s.depends_on.getD []) =
        g ++ [(s.id, s.depends_on.getD [])] := by
      rw [dictInsert, if_neg (hfresh s (List.mem_cons_self s ss))]
    rw [hins]
    simp only [List.map_cons, List.nodup_cons] at hnd
    rw [ih (g ++ [(s.id, s.depends_on.getD [])]) ?_ hnd.2]
    · simp
    · intro s' hs'
      rw [List.map_append, List.mem_append]
      rintro (h | h)
      · exact hfresh s' (List.mem_cons_of_mem s hs') h
      · simp only [List.map_cons, List.map_nil, List.mem_singleton] at h
        exact hnd.1 (h ▸ List.mem_map_of_mem StepDefinition.id hs')

lemma stepGraph_eq_of_nodup (steps : List StepDefinition)
    (h : (steps.map StepDefinition.id).Nodup) :
    stepGraph steps = steps.map (fun s => (s.id, s.depends_on.getD [])) := by
  rw [stepGraph, stepGraph_go_eq_of_nodup steps [] (by simp) h]
  simp

lemma eq_of_keys_nodup {β : Type} :
    ∀ {d : List (String × β)}, (d.map Prod.fst).Nodup →
      ∀ {k : String} {v v' : β}, (k, v) ∈ d → (k, v') ∈ d → v = v' := by
  intro d
  induction d with
  | nil => intro _ k v v' h; exact absurd h (List.not_mem_nil _)
  | cons p ps ih =>
    intro hnd k v v' h1 h2
    simp only [List.map_cons, List.nodup_cons] at hnd
    rcases List.mem_cons.mp h1 with h1 | h1 <;>
      rcases List.mem_cons.mp h2 with h2 | h2
    · rw [← h2] at h1
      exact congrArg Prod.snd h1
    · exfalso
      apply hnd.1
      rw [← h1]
      exact List.mem_map.mpr ⟨(k, v'), h2, rfl⟩
    · exfalso
      apply hnd.1
      rw [← h2]
      exact List.mem_map.mpr ⟨(k, v), h1, rfl⟩
    · exact ih hnd.2 h1 h2

lemma mem_readySteps {g : DepGraph} {processed : List String} {x : String} :
    x ∈ readySteps g processed ↔
      ∃ ds, (x, ds) ∈ g ∧ x ∉ processed ∧ ∀ d ∈ ds, d ∈ processed := by
  unfold readySteps
  simp only [List.mem_map, List.mem_filter, decide_eq_true_iff]
  constructor
  · rintro ⟨⟨a, ds⟩, ⟨hmem, hna, hds⟩, rfl⟩
    exact ⟨ds, hmem, hna, hds⟩
  · rintro ⟨ds, hmem, hna, hds⟩
    exact ⟨(x, ds), ⟨hmem, hna, hds⟩, rfl⟩

lemma readySteps_nodup {g : DepGraph} {processed : List String}
    (hK : (g.map Prod.fst).Nodup) : (readySteps g processed).Nodup :=
  List.Nodup.sublist ((List.filter_sublist g).map Prod.fst) hK

lemma placeable_mem_processed_of_stall {g : DepGraph} {processed : List String}
    (hr : readySteps g processed = []) :
    ∀ y, Placeable g y → y ∈ processed := by
  intro y hy
  induction hy with
  | intro s ds hmem hdeps ih =>
    by_contra hs
    have : s ∈ readySteps g processed := mem_readySteps.mpr ⟨ds, hmem, hs, ih⟩
    rw [hr] at this
    exact absurd this (List.not_mem_nil s)

lemma acc_not_rel_self {α : Sort _} {r : α → α → Prop} {a : α}
    (h : Acc r a) : ¬ r a a := by
  induction h with
  | intro b hb ih => exact fun hr => ih b hr hr

lemma placeable_acc {g : DepGraph} (hK : (g.map Prod.fst).Nodup) {x : String}
    (h : Placeable g x) : Acc (Function.swap (DepEdge g)) x := by
  induction h with
  | intro s ds hmem hdeps ih =>
    constructor
    intro d hd
    obtain ⟨ds', hmem', hd'⟩ := hd
    have heq : ds' = ds := eq_of_keys_nodup hK hmem' hmem
    subst heq
    exact ih d hd'

lemma not_cycle_of_placeable {g : DepGraph} (hK : (g.map Prod.fst).Nodup)
    {x : String} (h : Placeable g x) :
    ¬ Relation.TransGen (DepEdge g) x x := by
  intro hcyc
  have hacc : Acc (Relation.TransGen (Function.swap (DepEdge g))) x :=
    (placeable_acc hK h).transGen
  exact acc_not_rel_self hacc (Relation.transGen_swap.mpr hcyc)

lemma depEdge_mem_keys {g : DepGraph} {a b : String} (h : DepEdge g a b) :
    a ∈ g.map Prod.fst := by
  obtain ⟨ds, hmem, _⟩ := h
  exact List.mem_map.mpr ⟨(a, ds), hmem, rfl⟩

/-- A graph admitting a rank function that strictly decreases along dependency
edges has no cycle (used to discharge acyclicity for concrete graphs). -/
lemma not_hasCycle_of_rank {g : DepGraph} (f : String → Nat)
    (hf : ∀ p ∈ g, ∀ d ∈ p.2, f d < f p.1) : ¬ HasCycle g := by
  rintro ⟨x, hx⟩
  have hlt : ∀ a b, Relation.TransGen (DepEdge g) a b → f b < f a := by
    intro a b h
    induction h with
    | single h1 =>
      obtain ⟨ds, hm, hd⟩ := h1
      exact hf _ hm _ hd
    | tail h1 h2 ih =>
      obtain ⟨ds, hm, hd⟩ := h2
      exact lt_trans (hf _ hm _ hd) ih
  exact lt_irrefl _ (hlt x x hx)

/-- In an acyclic graph whose dependencies all exist, every key is placeable
(the finite-graph pigeonhole argument: an unplaceable key would yield an
infinite dependency chain inside a finite key set, hence a repeated key, hence
a cycle). -/
lemma all_placeable_of_acyclic {g : DepGraph}
    (hK : (g.map Prod.fst).Nodup)
    (hdeps : ∀ p ∈ g, ∀ d ∈ p.2, d ∈ g.map Prod.fst)
    (hnc : ¬ HasCycle g) :
    ∀ x ∈ g.map Prod.fst, Placeable g x := by
  classical
  by_contra hbad
  push_neg at hbad
  obtain ⟨x0, hx0, hnp0⟩ := hbad
  have step : ∀ x, x ∈ g.map Prod.fst → ¬ Placeable g x →
      ∃ d, DepEdge g x d ∧ d ∈ g.map Prod.fst ∧ ¬ Placeable g d := by
    intro x hx hnp
    obtain ⟨⟨a, ds⟩, hp, rfl⟩ := List.mem_map.mp hx
    by_cases hall : ∀ d ∈ ds, Placeable g d
    · exact absurd (Placeable.intro _ ds hp hall) hnp
    · push_neg at hall
      obtain ⟨d, hd, hnd⟩ := hall
      exact ⟨d, ⟨ds, hp, hd⟩, hdeps _ hp d hd, hnd⟩
  have hnext : ∀ x, ∃ d, (x ∈ g.map Prod.fst ∧ ¬ Placeable g x) →
      (DepEdge g x d ∧ d ∈ g.map Prod.fst ∧ ¬ Placeable g d) := by
    intro x
    by_cases hx : x ∈ g.map Prod.fst ∧ ¬ Placeable g x
    · obtain ⟨d, hd⟩ := step x hx.1 hx.2
      exact ⟨d, fun _ => hd⟩
    · exact ⟨x, fun h => absurd h hx⟩
  choose nxt hnxt using hnext
  have hP : ∀ n : Nat, nxt^[n] x0 ∈ g.map Prod.fst ∧ ¬ Placeable g (nxt^[n] x0) := by
    intro n
    induction n with
    | zero => exact ⟨hx0, hnp0⟩
    | succ n ih =>
      have h := hnxt _ ih
      rw [Function.iterate_succ_apply']
      exact ⟨h.2.1, h.2.2⟩
  have hEdge : ∀ n : Nat, DepEdge g (nxt^[n] x0) (nxt^[n + 1] x0) := by
    intro n
    have h := hnxt _ (hP n)
    rw [Function.iterate_succ_apply']
    exact h.1
  have hPath : ∀ n k : Nat,
      Relation.TransGen (DepEdge g) (nxt^[n] x0) (nxt^[n + k + 1] x0) := by
    intro n k
    induction k with
    | zero => exact Relation.TransGen.single (hEdge n)
    | succ k ih =>
      have h2 := hEdge (n + k + 1)
      have hidx : n + (k + 1) + 1 = (n + k + 1) + 1 := by omega
      rw [hidx]
      exact Relation.TransGen.tail ih h2
  have hcard : (g.map Prod.fst).toFinset.card <
      Fintype.card (Fin ((g.map Prod.fst).length + 1)) := by
    have h1 := (g.map Prod.fst).toFinset_card_le
    rw [Fintype.card_fin]
    omega
  obtain ⟨i, _, j, _, hij, hval⟩ :=
    Finset.exists_ne_map_eq_of_card_lt_of_maps_to
      (s := (Finset.univ : Finset (Fin ((g.map Prod.fst).length + 1))))
      (f := fun i => nxt^[i.1] x0)
      (by rw [Finset.card_univ]; exact hcard)
      (fun i _ => List.mem_toFinset.mpr (hP i.1).1)
  have mkcycle : ∀ a b : Fin ((g.map Prod.fst).length + 1),
      a < b → nxt^[a.1] x0 = nxt^[b.1] x0 → False := by
    intro a b hab heq
    have hv : a.1 < b.1 := hab
    have hpath := hPath a.1 (b.1 - a.1 - 1)
    have hidx : a.1 + (b.1 - a.1 - 1) + 1 = b.1 := by omega
    rw [hidx, ← heq] at hpath
    exact hnc ⟨nxt^[a.1] x0, hpath⟩
  rcases lt_or_gt_of_ne hij with hlt | hlt
  · exact mkcycle i j hlt hval
  · exact mkcycle j i hlt hval.symm

/-- Waves are dependency-ordered relative to an already-processed set: every
dependency of a step occurring in wave `j` is either already processed or lies
in a strictly earlier wave. -/
def WaveOrdered (g : DepGraph) (processed : List String)
    (waves : List (List String)) : Prop :=
  ∀ j (hj : j < waves.length), ∀ s ∈ waves.get ⟨j, hj⟩,
    ∀ ds, (s, ds) ∈ g → ∀ d ∈ ds,
      d ∈ processed ∨ ∃ i, ∃ hi : i < waves.length, i < j ∧ d ∈ waves.get ⟨i, hi⟩

lemma readySteps_subset_keys {g : DepGraph} {processed : List String} :
    ∀ x ∈ readySteps g processed, x ∈ g.map Prod.fst := by
  intro x hx
  obtain ⟨ds, hm, _, _⟩ := mem_readySteps.mp hx
  exact List.mem_map.mpr ⟨(x, ds), hm, rfl⟩

lemma readySteps_not_processed {g : DepGraph} {processed : List String} :
    ∀ x ∈ readySteps g processed, x ∉ processed := by
  intro x hx
  exact (mem_readySteps.mp hx).choose_spec.2.1

/-- Unfolding of `execLoop` when the loop condition fails: the loop exits
with the accumulated waves (here the tail, `[]`). -/
lemma execLoop_exit (fuel nSteps : Nat) (g : DepGraph) (processed : List String)
    (h : ¬ processed.length < nSteps) :
    execLoop fuel nSteps g processed = Except.ok [] := by
  rw [execLoop.eq_def, if_neg h]

/-- Unfolding of `execLoop` for one loop iteration. -/
lemma execLoop_succ (fuel nSteps : Nat) (g : DepGraph) (processed : List String)
    (h : processed.length < nSteps) :
    execLoop (fuel + 1) nSteps g processed =
      if readySteps g processed = [] then
        Except.error ((g.map Prod.fst).filter (fun s => decide (s ∉ processed)))
      else
        match execLoop fuel nSteps g (processed ++ readySteps g processed) with
        | Except.error e => Except.error e
        | Except.ok waves => Except.ok (readySteps g processed :: waves) := by
  rw [execLoop.eq_def, if_pos h]

/-- If some key of the graph is unplaceable, the layering loop eventually
stalls and raises the circular-dependency error, and the error payload
contains exactly the unplaceable keys — every id still unplaced at the stall,
not merely one. -/
lemma execLoop_stall (g : DepGraph) (fuel nSteps : Nat)
    (hK : (g.map Prod.fst).Nodup)
    (hx : ∃ x ∈ g.map Prod.fst, ¬ Placeable g x)
    (hn : (g.map Prod.fst).length ≤ nSteps) :
    ∀ processed : List String,
      (∀ x ∈ processed, x ∈ g.map Prod.fst) →
      processed.Nodup →
      (∀ x ∈ processed, Placeable g x) →
      nSteps - processed.length ≤ fuel →
      ∃ r, execLoop fuel nSteps g processed = Except.error r ∧
        ∀ y, y ∈ r ↔ y ∈ g.map Prod.fst ∧ ¬ Placeable g y := by
  have hlenlt : ∀ processed : List String,
      (∀ x ∈ processed, x ∈ g.map Prod.fst) → processed.Nodup →
      (∀ x ∈ processed, Placeable g x) → processed.length < nSteps := by
    intro processed hsub hnd hp
    obtain ⟨x, hxk, hxnp⟩ := hx
    have hxnp' : x ∉ processed := fun hc => hxnp (hp x hc)
    have hsubE : processed ⊆ (g.map Prod.fst).erase x := by
      intro z hz
      have hne : z ≠ x := by
        intro h
        rw [h] at hz
        exact hxnp' hz
      exact (List.mem_erase_of_ne hne).mpr (hsub z hz)
    have h1 := (hnd.subperm hsubE).length_le
    have h2 := List.length_erase_of_mem hxk
    have h3 := List.length_pos.mpr (List.ne_nil_of_mem hxk)
    omega
  induction fuel with
  | zero =>
    intro processed hsub hnd hp hfuel
    have := hlenlt processed hsub hnd hp
    omega
  | succ fuel ih =>
    intro processed hsub hnd hp hfuel
    have hlen : processed.length < nSteps := hlenlt processed hsub hnd hp
    by_cases hr : readySteps g processed = []
    · refine ⟨(g.map Prod.fst).filter (fun s => decide (s ∉ processed)), ?_, ?_⟩
      · rw [execLoop_succ fuel nSteps g processed hlen, if_pos hr]
      · intro y
        simp only [List.mem_filter, decide_eq_true_iff]
        constructor
        · rintro ⟨hy, hyp⟩
          exact ⟨hy, fun hpl => hyp (placeable_mem_processed_of_stall hr y hpl)⟩
        · rintro ⟨hy, hynp⟩
          exact ⟨hy, fun hc => hynp (hp y hc)⟩
    · have hnd' : (processed ++ readySteps g processed).Nodup := by
        rw [List.nodup_append]
        exact ⟨hnd, readySteps_nodup hK,
          fun a ha hb => (readySteps_not_processed a hb) ha⟩
      have hsub' : ∀ z ∈ processed ++ readySteps g processed,
          z ∈ g.map Prod.fst := by
        intro z hz
        rcases List.mem_append.mp hz with hz | hz
        · exact hsub z hz
        · exact readySteps_subset_keys z hz
      have hp' : ∀ z ∈ processed ++ readySteps g processed, Placeable g z := by
        intro z hz
        rcases List.mem_append.mp hz with hz | hz
        · exact hp z hz
        · obtain ⟨ds, hm, _, hall⟩ := mem_readySteps.mp hz
          exact Placeable.intro z ds hm (fun d hd => hp d (hall d hd))
      have hfuel' : nSteps - (processed ++ readySteps g processed).length ≤ fuel := by
        rw [List.length_append]
        have hpos : 0 < (readySteps g processed).length := List.length_pos.mpr hr
        omega
      obtain ⟨r, hrec, hiff⟩ := ih (processed ++ readySteps g processed) hsub' hnd' hp' hfuel'
      refine ⟨r, ?_, hiff⟩
      rw [execLoop_succ fuel nSteps g processed hlen, if_neg hr, hrec]

/-- Master correctness lemma for the layering loop: if every key of the graph
is placeable, the loop (with the key count as bound) succeeds from any
duplicate-free processed set drawn from the keys; the produced waves are a
permutation of the unprocessed keys and are dependency-ordered. -/
lemma execLoop_success (g : DepGraph) (fuel : Nat)
    (hK : (g.map Prod.fst).Nodup)
    (hplace : ∀ x ∈ g.map Prod.fst, Placeable g x) :
    ∀ processed : List String,
      (∀ x ∈ processed, x ∈ g.map Prod.fst) →
      processed.Nodup →
      (g.map Prod.fst).length - processed.length ≤ fuel →
      ∃ waves,
        execLoop fuel (g.map Prod.fst).length g processed = Except.ok waves ∧
        waves.flatten.Perm
          ((g.map Prod.fst).filter (fun s => decide (s ∉ processed))) ∧
        WaveOrdered g processed waves := by
  induction fuel with
  | zero =>
    intro processed hsub hnd hfuel
    have h : ¬ processed.length < (g.map Prod.fst).length := by omega
    have hall : ∀ y ∈ g.map Prod.fst, y ∈ processed := by
      by_contra hcon
      push_neg at hcon
      obtain ⟨y, hy, hyp⟩ := hcon
      have hsubE : processed ⊆ (g.map Prod.fst).erase y := by
        intro z hz
        have hne : z ≠ y := by
          intro hzy
          rw [hzy] at hz
          exact hyp hz
        exact (List.mem_erase_of_ne hne).mpr (hsub z hz)
      have h1 := (hnd.subperm hsubE).length_le
      have h2 := List.length_erase_of_mem hy
      have h3 := List.length_pos.mpr (List.ne_nil_of_mem hy)
      omega
    refine ⟨[], execLoop_exit 0 _ g processed h, ?_, ?_⟩
    · have hnil : (g.map Prod.fst).filter (fun s => decide (s ∉ processed)) = [] := by
        rw [List.filter_eq_nil_iff]
        intro a ha
        simp only [decide_eq_true_iff]
        intro hc
        exact hc (hall a ha)
      rw [hnil]
      exact List.Perm.refl _
    · intro j hj
      exact absurd hj (Nat.not_lt_zero j)
  | succ fuel ih =>
    intro processed hsub hnd hfuel
    by_cases h : processed.length < (g.map Prod.fst).length
    · -- the loop iterates once more; first show some step is ready
      have hready : ¬ readySteps g processed = [] := by
        intro hr
        have hex : ∃ y ∈ g.map Prod.fst, y ∉ processed := by
          by_contra hcon
          push_neg at hcon
          have hsp : (g.map Prod.fst).Subperm processed := hK.subperm hcon
          have := hsp.length_le
          omega
        obtain ⟨y, hy, hyp⟩ := hex
        exact hyp (placeable_mem_processed_of_stall hr y (hplace y hy))
      have hRnp := @readySteps_not_processed g processed
      have hRsub := @readySteps_subset_keys g processed
      have hnd' : (processed ++ readySteps g processed).Nodup := by
        rw [List.nodup_append]
        exact ⟨hnd, readySteps_nodup hK, fun a ha hb => (hRnp a hb) ha⟩
      have hsub' : ∀ z ∈ processed ++ readySteps g processed,
          z ∈ g.map Prod.fst := by
        intro z hz
        rcases List.mem_append.mp hz with hz | hz
        · exact hsub z hz
        · exact hRsub z hz
      have hfuel' : (g.map Prod.fst).length -
          (processed ++ readySteps g processed).length ≤ fuel := by
        rw [List.length_append]
        have hpos : 0 < (readySteps g processed).length :=
          List.length_pos.mpr hready
        omega
      obtain ⟨waves, hw, hperm, hord⟩ :=
        ih (processed ++ readySteps g processed) hsub' hnd' hfuel'
      refine ⟨readySteps g processed :: waves, ?_, ?_, ?_⟩
      · rw [execLoop_succ fuel _ g processed h, if_neg hready, hw]
      · -- permutation of the unprocessed keys
        rw [List.flatten_cons]
        have hflatnd : waves.flatten.Nodup :=
          List.Nodup.perm (hK.filter _) hperm.symm
        have hLnd : (readySteps g processed ++ waves.flatten).Nodup := by
          rw [List.nodup_append]
          refine ⟨readySteps_nodup hK, hflatnd, ?_⟩
          intro a ha hb
          have := hperm.mem_iff.mp hb
          rw [List.mem_filter, decide_eq_true_iff] at this
          exact this.2 (List.mem_append.mpr (Or.inr ha))
        rw [List.perm_ext_iff_of_nodup hLnd (hK.filter _)]
        intro y
        rw [List.mem_append, List.mem_filter, decide_eq_true_iff]
        constructor
        · rintro (hy | hy)
          · exact ⟨hRsub y hy, hRnp y hy⟩
          · have := hperm.mem_iff.mp hy
            rw [List.mem_filter, decide_eq_true_iff] at this
            exact ⟨this.1, fun hc => this.2 (List.mem_append.mpr (Or.inl hc))⟩
        · rintro ⟨hy, hyp⟩
          by_cases hyR : y ∈ readySteps g processed
          · exact Or.inl hyR
          · refine Or.inr (hperm.mem_iff.mpr ?_)
            rw [List.mem_filter, decide_eq_true_iff]
            refine ⟨hy, ?_⟩
            intro hc
            rcases List.mem_append.mp hc with hc | hc
            · exact hyp hc
            · exact hyR hc
      · -- dependency ordering of the waves
        intro j hj s hs ds hds d hd
        match j with
        | 0 =>
          obtain ⟨ds', hm', _, hall⟩ :=
            mem_readySteps.mp (show s ∈ readySteps g processed from hs)
          have heq : ds = ds' := eq_of_keys_nodup hK hds hm'
          exact Or.inl (hall d (heq ▸ hd))
        | j' + 1 =>
          have hj' : j' < waves.length := by
            simp only [List.length_cons] at hj
            omega
          rcases hord j' hj' s (show s ∈ waves.get ⟨j', hj'⟩ from hs) ds hds d hd with
            hcase | hcase
          · rcases List.mem_append.mp hcase with hcase | hcase
            · exact Or.inl hcase
            · exact Or.inr ⟨0, by simp, Nat.succ_pos j', hcase⟩
          · obtain ⟨i, hi, hij, hdi⟩ := hcase
            refine Or.inr ⟨i + 1, ?_, by omega, hdi⟩
            simp only [List.length_cons]
            omega
    · -- the loop exits immediately: every key is already processed
      have hall : ∀ y ∈ g.map Prod.fst, y ∈ processed := by
        by_contra hcon
        push_neg at hcon
        obtain ⟨y, hy, hyp⟩ := hcon
        have hsubE : processed ⊆ (g.map Prod.fst).erase y := by
          intro z hz
          have hne : z ≠ y := by
            intro hzy
            rw [hzy] at hz
            exact hyp hz
          exact (List.mem_erase_of_ne hne).mpr (hsub z hz)
        have h1 := (hnd.subperm hsubE).length_le
        have h2 := List.length_erase_of_mem hy
        have h3 := List.length_pos.mpr (List.ne_nil_of_mem hy)
        omega
      refine ⟨[], execLoop_exit (fuel + 1) _ g processed h, ?_, ?_⟩
      · have hnil : (g.map Prod.fst).filter (fun s => decide (s ∉ processed)) = [] := by
          rw [List.filter_eq_nil_iff]
          intro a ha
          simp only [decide_eq_true_iff]
          intro hc
          exact hc (hall a ha)
        rw [hnil]
        exact List.Perm.refl _
      · intro j hj
        exact absurd hj (Nat.not_lt_zero j)

lemma transGen_exists_head {α : Type} {r : α → α → Prop} {a b : α}
    (h : Relation.TransGen r a b) : ∃ c, r a c := by
  induction h with
  | single h1 => exact ⟨_, h1⟩
  | tail h1 h2 ih => exact ih

/-- C1: For every workflow graph whose dependency relation is acyclic (and
which satisfies the workflow-graph invariants: unique step ids, all
dependencies existing), `get_execution_order` returns a partition of all step
ids into an ordered sequence of waves: the concatenation of the waves is a
permutation of the step ids with no duplicate (every step id appears in
exactly one wave), and every dependency of a step is placed in a strictly
earlier wave than that step. -/
theorem execution_order_partition (w : WorkflowSchema)
    (hids : (w.steps.map StepDefinition.id).Nodup)
    (hdeps : ∀ s ∈ w.steps, ∀ d ∈ s.depends_on.getD [],
      d ∈ w.steps.map StepDefinition.id)
    (hacyc : ¬ HasCycle (stepGraph w.steps)) :
    ∃ waves, get_execution_order w = Except.ok waves ∧
      waves.flatten.Perm (w.steps.map StepDefinition.id) ∧
      waves.flatten.Nodup ∧
      ∀ s ∈ w.steps, ∀ d ∈ s.depends_on.getD [],
        ∀ j (hj : j < waves.length), s.id ∈ waves.get ⟨j, hj⟩ →
          ∃ i, ∃ hi : i < waves.length, i < j ∧ d ∈ waves.get ⟨i, hi⟩ := by
  have hg : stepGraph w.steps =
      w.steps.map (fun s => (s.id, s.depends_on.getD [])) :=
    stepGraph_eq_of_nodup w.steps hids
  have hkeys : (stepGraph w.steps).map Prod.fst = w.steps.map StepDefinition.id := by
    rw [hg, List.map_map]
    rfl
  have hK : ((stepGraph w.steps).map Prod.fst).Nodup := by
    rw [hkeys]; exact hids
  have hdeps' : ∀ p ∈ stepGraph w.steps, ∀ d ∈ p.2,
      d ∈ (stepGraph w.steps).map Prod.fst := by
    intro p hp d hd
    rw [hkeys]
    rw [hg] at hp
    obtain ⟨s, hs, rfl⟩ := List.mem_map.mp hp
    exact hdeps s hs d hd
  have hplace := all_placeable_of_acyclic hK hdeps' hacyc
  have hn : w.steps.length = ((stepGraph w.steps).map Prod.fst).length := by
    rw [hkeys, List.length_map]
  obtain ⟨waves, hw, hperm, hord⟩ :=
    execLoop_success (stepGraph w.steps) ((stepGraph w.steps).map Prod.fst).length
      hK hplace [] (by simp) List.nodup_nil (by simp)
  have hfilter : ((stepGraph w.steps).map Prod.fst).filter
      (fun s => decide (s ∉ ([] : List String))) = (stepGraph w.steps).map Prod.fst := by
    rw [List.filter_eq_self]
    intro a _
    simp
  rw [hfilter] at hperm
  refine ⟨waves, ?_, ?_, ?_, ?_⟩
  · rw [get_execution_order, hn]
    exact hw
  · rw [← hkeys]
    exact hperm
  · exact List.Nodup.perm hK hperm.symm
  · intro s hs d hd j hj hsid
    have hpair : (s.id, s.depends_on.getD []) ∈ stepGraph w.steps := by
      rw [hg]
      exact List.mem_map.mpr ⟨s, hs, rfl⟩
    rcases hord j hj s.id hsid _ hpair d hd with hcase | hcase
    · exact absurd hcase (List.not_mem_nil d)
    · exact hcase

/-- Concrete two-step acyclic workflow used to witness `execution_order_partition`. -/
def witAcyclic : WorkflowSchema :=
  { metadata := { id := "wf_acyclic", name := "Acyclic Demo" },
    steps :=
      [{ id := "a", name := "A", type := StepType.form_input },
       { id := "b", name := "B", type := StepType.data_transformation,
         depends_on := some ["a"] }] }

/-- Witness for C1 at a concrete acyclic graph; acyclicity is discharged by
the rank function sending "a" to 0 and everything else to 1. -/
theorem execution_order_partition_witness :
    ∃ waves, get_execution_order witAcyclic = Except.ok waves ∧
      waves.flatten.Perm (witAcyclic.steps.map StepDefinition.id) ∧
      waves.flatten.Nodup ∧
      ∀ s ∈ witAcyclic.steps, ∀ d ∈ s.depends_on.getD [],
        ∀ j (hj : j < waves.length), s.id ∈ waves.get ⟨j, hj⟩ →
          ∃ i, ∃ hi : i < waves.length, i < j ∧ d ∈ waves.get ⟨i, hi⟩ :=
  execution_order_partition witAcyclic (by decide) (by decide)
    (not_hasCycle_of_rank (fun s => if s = "a" then 0 else 1) (by decide))

/-- C2: For every workflow graph containing a dependency cycle,
`get_execution_order` fails with the circular-dependency error, and the error
payload names exactly the step ids that cannot be placed in any wave — the
whole unresolved remainder at the stall, not merely one cyclic step. -/
theorem execution_order_cycle_error (w : WorkflowSchema)
    (hcyc : HasCycle (stepGraph w.steps)) :
    ∃ r, get_execution_order w = Except.error r ∧ r ≠ [] ∧
      ∀ y, y ∈ r ↔ (∃ s ∈ w.steps, s.id = y) ∧
        ¬ Placeable (stepGraph w.steps) y := by
  obtain ⟨x, hx⟩ := hcyc
  have hK := stepGraph_keys_nodup w.steps
  have hxk : x ∈ (stepGraph w.steps).map Prod.fst := by
    obtain ⟨c, hc⟩ := transGen_exists_head hx
    exact depEdge_mem_keys hc
  have hxnp : ¬ Placeable (stepGraph w.steps) x :=
    fun hpl => not_cycle_of_placeable hK hpl hx
  obtain ⟨r, hr, hiff⟩ :=
    execLoop_stall (stepGraph w.steps) w.steps.length w.steps.length hK
      ⟨x, hxk, hxnp⟩ (stepGraph_keys_length w.steps) []
      (by simp) List.nodup_nil (by simp) (by simp)
  refine ⟨r, hr, ?_, ?_⟩
  · intro hnil
    have hmem := (hiff x).mpr ⟨hxk, hxnp⟩
    rw [hnil] at hmem
    exact absurd hmem (List.not_mem_nil x)
  · intro y
    rw [hiff y, mem_stepGraph_keys]

/-- Concrete cyclic workflow (a ↔ b, and c depending on a) used to witness
`execution_order_cycle_error`. -/
def witCyclic : WorkflowSchema :=
  { metadata := { id := "wf_cyclic", name := "Cyclic Demo" },
    steps :=
      [{ id := "a", name := "A", type := StepType.form_input,
         depends_on := some ["b"] },
       { id := "b", name := "B", type := StepType.form_input,
         depends_on := some ["a"] },
       { id := "c", name := "C", type := StepType.form_input,
         depends_on := some ["a"] }] }

/-- Witness for C2 at a concrete cyclic graph; the cycle a → b → a is given
explicitly. -/
theorem execution_order_cycle_error_witness :
    ∃ r, get_execution_order witCyclic = Except.error r ∧ r ≠ [] ∧
      ∀ y, y ∈ r ↔ (∃ s ∈ witCyclic.steps, s.id = y) ∧
        ¬ Placeable (stepGraph witCyclic.steps) y :=
  execution_order_cycle_error witCyclic
    ⟨"a", Relation.TransGen.head
      (show DepEdge (stepGraph witCyclic.steps) "a" "b" from
        ⟨["b"], by decide, by decide⟩)
      (Relation.TransGen.single
        (show DepEdge (stepGraph witCyclic.steps) "b" "a" from
          ⟨["a"], by decide, by decide⟩))⟩

/-- C4 (code behaviour at the failing input): constructing a select parameter
WITHOUT the `options` keyword is ACCEPTED — pydantic does not run
`validate_options` on a defaulted field, so the guard the validator's own
error message announces ("Options required for select parameter type") never
fires for the omitted case.  Explicitly passing `None` or `[]` is rejected,
and a non-empty list is accepted. -/
theorem select_without_options_accepted :
    mkParameterDefinition { name := "llm_provider", type := ParameterType.select }
        none =
      Except.ok { name := "llm_provider", type := ParameterType.select } ∧
    mkParameterDefinition { name := "llm_provider", type := ParameterType.select }
        (some none) =
      Except.error (SchemaError.optionsRequired ParameterType.select) ∧
    mkParameterDefinition { name := "llm_provider", type := ParameterType.select }
        (some (some [])) =
      Except.error (SchemaError.optionsRequired ParameterType.select) ∧
    mkParameterDefinition { name := "llm_provider", type := ParameterType.select }
        (some (some ["openai", "anthropic", "google"])) =
      Except.ok { name := "llm_provider", type := ParameterType.select,
                  options := some ["openai", "anthropic", "google"] } :=
  ⟨rfl, rfl, rfl, rfl⟩

/-- Steps with a duplicated id and duplicated parameter names, used for C5. -/
def dupIdSteps : List StepDefinition :=
  [{ id := "step_1", name := "First", type := StepType.form_input },
   { id := "step_1", name := "Second", type := StepType.form_input,
     parameters := some [inputDataParam, inputDataParam] }]

/-- C5 counterexample: a workflow whose two steps share the id "step_1" (and
whose second step carries two parameters with the same name) is ACCEPTED by
construction — no `DuplicateIdentifier` error is raised. -/
theorem duplicate_identifiers_accepted :
    mkWorkflowSchema { id := "wf_dup", name := "Dup" } dupIdSteps =
      Except.ok { metadata := { id := "wf_dup", name := "Dup" },
                  steps := dupIdSteps } := by
  rfl

/-- C5 amended: workflow construction performs no duplicate-identifier check:
any steps whose dependencies all exist — in particular inputs with duplicated
step ids or duplicated parameter names — construct successfully; the only
structural validation is dependency existence. -/
theorem no_duplicate_identifier_check (metadata : WorkflowMetadata)
    (steps : List StepDefinition)
    (hdup : ¬ (steps.map StepDefinition.id).Nodup ∨
      ∃ s ∈ steps, ¬ ((s.parameters.getD []).map ParameterDefinition.name).Nodup)
    (hdeps : ∀ s ∈ steps, ∀ d ∈ s.depends_on.getD [],
      d ∈ steps.map StepDefinition.id) :
    mkWorkflowSchema metadata steps =
      Except.ok { metadata := metadata, steps := steps } := by
  have hnone : (steps.findSome? (fun s =>
      ((s.depends_on.getD []).find? (fun d =>
        decide (d ∉ steps.map StepDefinition.id))).map
          (fun d => (s.id, d)))) = none := by
    rw [List.findSome?_eq_none_iff]
    intro s hs
    rw [Option.map_eq_none', List.find?_eq_none]
    intro d hd
    simp only [decide_eq_true_iff, Decidable.not_not]
    exact hdeps s hs d hd
  simp only [mkWorkflowSchema, validate_step_dependencies, hnone]

/-- Witness for the amended C5 at the concrete duplicated input. -/
theorem no_duplicate_identifier_check_witness :
    mkWorkflowSchema { id := "wf_dup2", name := "Dup Two" } dupIdSteps =
      Except.ok { metadata := { id := "wf_dup2", name := "Dup Two" },
                  steps := dupIdSteps } :=
  no_duplicate_identifier_check _ dupIdSteps (Or.inl (by decide)) (by decide)

/-- C6: whenever some step's declared dependency is not the id of any step in
the list, construction fails with `UnknownDependency` naming an offending
(step id, missing id) pair — the missing id is really absent and really
declared by that step — and no workflow object is produced (the result is the
error, not a graph). -/
theorem unknown_dependency_rejected (metadata : WorkflowMetadata)
    (steps : List StepDefinition)
    (hmissing : ∃ s ∈ steps, ∃ d ∈ s.depends_on.getD [],
      d ∉ steps.map StepDefinition.id) :
    ∃ sid d, mkWorkflowSchema metadata steps =
        Except.error (SchemaError.unknownDependency sid d) ∧
      d ∉ steps.map StepDefinition.id ∧
      ∃ s ∈ steps, s.id = sid ∧ d ∈ s.depends_on.getD [] := by
  have hne : (steps.findSome? (fun s =>
      ((s.depends_on.getD []).find? (fun d =>
        decide (d ∉ steps.map StepDefinition.id))).map
          (fun d => (s.id, d)))) ≠ none := by
    intro hFnone
    rw [List.findSome?_eq_none_iff] at hFnone
    obtain ⟨s, hs, d, hd, hnotin⟩ := hmissing
    have hFs := hFnone s hs
    rw [Option.map_eq_none', List.find?_eq_none] at hFs
    exact (hFs d hd) (by simpa using hnotin)
  obtain ⟨p, hp⟩ := Option.ne_none_iff_exists.mp hne
  have hp' := hp.symm
  obtain ⟨s, hs, hFs⟩ := List.exists_of_findSome?_eq_some hp'
  rw [Option.map_eq_some'] at hFs
  obtain ⟨d, hfind, hpd⟩ := hFs
  have hdmem := List.mem_of_find?_eq_some hfind
  have hdpred := List.find?_some hfind
  rw [decide_eq_true_iff] at hdpred
  refine ⟨s.id, d, ?_, hdpred, s, hs, rfl, hdmem⟩
  rw [← hpd] at hp'
  simp only [mkWorkflowSchema, validate_step_dependencies, hp']

/-- A step list whose single dependent step names a nonexistent id, for the
C6 witness. -/
def missingDepSteps : List StepDefinition :=
  [{ id := "step_1", name := "First", type := StepType.form_input,
     depends_on := some ["step_0"] }]

/-- Witness for C6 at a concrete input with a missing dependency. -/
theorem unknown_dependency_rejected_witness :
    ∃ sid d, mkWorkflowSchema { id := "wf_missing", name := "Missing" }
        missingDepSteps =
        Except.error (SchemaError.unknownDependency sid d) ∧
      d ∉ missingDepSteps.map StepDefinition.id ∧
      ∃ s ∈ missingDepSteps, s.id = sid ∧ d ∈ s.depends_on.getD [] :=
  unknown_dependency_rejected _ missingDepSteps (by decide)

/-- Modelled from the spec (§4.2/§9): the classifier as an explicit
priority-ordered table of (category, keyword set) pairs, consulted in the
fixed precedence order inference-processing, form-input, code-execution,
external-request. -/
def category_table : List (StepType × List String) :=
  [(StepType.llm_processing, llm_keywords),
   (StepType.form_input, input_keywords),
   (StepType.code_execution, execution_keywords),
   (StepType.http_request, http_keywords)]

/-- Modelled from the spec: lower-case the description, take the first table
entry whose keyword set matches (substring containment), and fall back to
data-transformation when nothing matches. -/
def spec_classify (desc : String) : StepType :=
  match category_table.find?
      (fun p => p.2.any (fun k => containsSub (strToLower desc) k)) with
  | some p => p.1
  | none => StepType.data_transformation

/-- C7: the code's if/elif keyword classifier computes exactly the spec's
priority-ordered first-match table lookup — lower-cased substring matching,
precedence llm/input/execution/http, fallback data-transformation — for every
description. -/
theorem classifier_matches_priority_table (desc : String) :
    (infer_step_configuration desc).step_type = spec_classify desc := by
  unfold infer_step_configuration spec_classify category_table
  by_cases h1 : llm_keywords.any (fun k => containsSub (strToLower desc) k)
  · simp [h1, List.find?]
  · by_cases h2 : input_keywords.any (fun k => containsSub (strToLower desc) k)
    · simp [h1, h2, List.find?]
    · by_cases h3 : execution_keywords.any (fun k => containsSub (strToLower desc) k)
      · simp [h1, h2, h3, List.find?]
      · by_cases h4 : http_keywords.any (fun k => containsSub (strToLower desc) k)
        · simp [h1, h2, h3, h4, List.find?]
        · simp [h1, h2, h3, h4, List.find?]

/-- The three-description task list of C8. -/
def demo_tasks : List (Int × String) :=
  [(1, "data input"), (2, "ai analysis"), (3, "report generation")]

/-- The workflow produced by `create_workflow_from_tasks` on `demo_tasks`. -/
def demo_wf : WorkflowSchema :=
  { metadata :=
      { id := "auto_workflow", name := "Auto Workflow",
        description := some "Auto-generated workflow for Auto Workflow",
        version := "1.0.0", author := some "Workflow Manager Auto-Generator",
        category := some "auto_generated" },
    steps :=
      [{ id := "step_1", name := "Data Input", type := StepType.form_input,
         description := some "Execute data input", depends_on := none,
         parameters := some [], llm_config := none, custom_handler := none },
       { id := "step_2", name := "Ai Analysis", type := StepType.llm_processing,
         description := some "Execute ai analysis", depends_on := some ["step_1"],
         parameters := some [llmProviderParam],
         llm_config := some
           { user_prompt_template :=
               "Execute the following task: ai analysis\n\nInput data: {input_data}",
             template_variables := some ["input_data"],
             response_format := some ResponseFormat.text },
         custom_handler := none },
       { id := "step_3", name := "Report Generation",
         type := StepType.data_transformation,
         description := some "Execute report generation",
         depends_on := some ["step_2"],
         parameters := some [inputDataParam], llm_config := none,
         custom_handler := none }] }

/-- C8: creating a workflow from the descriptions "data input", "ai analysis",
"report generation" (in order, no explicit dependencies) yields exactly
`demo_wf`: a linear chain step_1 → step_2 → step_3, with step_2 classified as
LLM processing carrying the required select `llm_provider` parameter with a
non-empty option set, and `get_execution_order` returns the three singleton
waves in order. -/
theorem linear_chain_demo_pipeline :
    create_workflow_from_tasks [] demo_tasks none none none "auto_generated" =
        (Except.ok "auto_workflow", [("auto_workflow", demo_wf)]) ∧
    demo_wf.steps.map StepDefinition.id = ["step_1", "step_2", "step_3"] ∧
    demo_wf.steps.map StepDefinition.depends_on =
      [none, some ["step_1"], some ["step_2"]] ∧
    demo_wf.steps.map StepDefinition.type =
      [StepType.form_input, StepType.llm_processing,
       StepType.data_transformation] ∧
    (demo_wf.steps.map StepDefinition.parameters)[1]? =
      some (some [llmProviderParam]) ∧
    llmProviderParam.name = "llm_provider" ∧
    llmProviderParam.type = ParameterType.select ∧
    llmProviderParam.required = true ∧
    llmProviderParam.options = some ["openai", "anthropic", "google"] ∧
    get_execution_order demo_wf =
      Except.ok [["step_1"], ["step_2"], ["step_3"]] :=
  ⟨rfl, rfl, rfl, rfl, rfl, rfl, rfl, rfl, rfl, rfl⟩

/-- An emitter that always raises and one that always succeeds, for C3. -/
def demoEmitFail : WorkflowSchema → Except String String :=
  fun _ => Except.error "boom"

/-- An emitter returning the workflow id as its artifact text, for C3. -/
def demoEmitOk : WorkflowSchema → Except String String :=
  fun w => Except.ok w.metadata.id

/-- C3 counterexample: with the first generator made to fail, the whole
generation returns that error — the remaining generators' artifacts are NOT
returned and no per-kind success/failure record exists. -/
theorem emitter_failure_aborts_counterexample :
    generate_workflow_files demoEmitFail demoEmitOk demoEmitOk demoEmitOk
        witAcyclic = Except.error "boom" ∧
    ∀ files, generate_workflow_files demoEmitFail demoEmitOk demoEmitOk
        demoEmitOk witAcyclic ≠ Except.ok files := by
  refine ⟨rfl, ?_⟩
  intro files h
  rw [show generate_workflow_files demoEmitFail demoEmitOk demoEmitOk demoEmitOk
      witAcyclic = Except.error "boom" from rfl] at h
  exact Except.noConfusion h

/-- C3 amended: `generate_workflow_files` sequences the four generators with
no exception handling, so the FIRST generator failure aborts the whole batch
with that error; generators after the failing one are never consulted and no
artifact map is returned. -/
theorem emitter_failure_aborts_generation {ε : Type}
    (g1 g2 g3 g4 : WorkflowSchema → Except ε String) (w : WorkflowSchema)
    (e : ε) :
    (g1 w = Except.error e →
      generate_workflow_files g1 g2 g3 g4 w = Except.error e) ∧
    (∀ a, g1 w = Except.ok a → g2 w = Except.error e →
      generate_workflow_files g1 g2 g3 g4 w = Except.error e) ∧
    (∀ a b, g1 w = Except.ok a → g2 w = Except.ok b → g3 w = Except.error e →
      generate_workflow_files g1 g2 g3 g4 w = Except.error e) ∧
    (∀ a b c, g1 w = Except.ok a → g2 w = Except.ok b → g3 w = Except.ok c →
      g4 w = Except.error e →
      generate_workflow_files g1 g2 g3 g4 w = Except.error e) := by
  refine ⟨?_, ?_, ?_, ?_⟩ <;> intros <;> simp_all [generate_workflow_files]

/-- Witness for the amended C3: a failure in the first (resp. second)
position aborts the batch with that error. -/
theorem emitter_failure_aborts_generation_witness :
    generate_workflow_files demoEmitFail demoEmitOk demoEmitOk demoEmitOk
        witAcyclic = Except.error "boom" ∧
    generate_workflow_files demoEmitOk demoEmitFail demoEmitOk demoEmitOk
        witAcyclic = Except.error "boom" :=
  ⟨(emitter_failure_aborts_generation demoEmitFail demoEmitOk demoEmitOk
      demoEmitOk witAcyclic "boom").1 rfl,
   (emitter_failure_aborts_generation demoEmitOk demoEmitFail demoEmitOk
      demoEmitOk witAcyclic "boom").2.1 "wf_acyclic" rfl rfl⟩

lemma digitChar_inj_lt :
    ∀ a < 10, ∀ b < 10, Nat.digitChar a = Nat.digitChar b → a = b := by
  decide

/-- Decimal digit characters of a natural number, most significant first
(`[]` for 0); the mathematical content of core's `Nat.toDigitsCore`. -/
def natDigits (n : Nat) : List Char :=
  if h : n = 0 then []
  else natDigits (n / 10) ++ [Nat.digitChar (n % 10)]
termination_by n
decreasing_by
  exact Nat.div_lt_self (Nat.pos_of_ne_zero h) (by norm_num)

lemma natDigits_zero : natDigits 0 = [] := by
  rw [natDigits]
  simp

lemma natDigits_of_ne_zero {n : Nat} (h : n ≠ 0) :
    natDigits n = natDigits (n / 10) ++ [Nat.digitChar (n % 10)] := by
  rw [natDigits, dif_neg h]

lemma natDigits_ne_nil {n : Nat} (h : n ≠ 0) : natDigits n ≠ [] := by
  rw [natDigits_of_ne_zero h]
  simp

lemma natDigits_eq_nil_iff {n : Nat} : natDigits n = [] ↔ n = 0 := by
  constructor
  · intro h
    by_contra hn
    exact natDigits_ne_nil hn h
  · rintro rfl
    exact natDigits_zero

lemma toDigitsCore_eq_natDigits :
    ∀ (fuel n : Nat) (acc : List Char), 0 < n → n < 10 ^ fuel →
      Nat.toDigitsCore 10 fuel n acc = natDigits n ++ acc := by
  intro fuel
  induction fuel with
  | zero =>
    intro n acc hpos hlt
    simp only [pow_zero] at hlt
    omega
  | succ fuel ih =>
    intro n acc hpos hlt
    rw [Nat.toDigitsCore]
    by_cases hdiv : n / 10 = 0
    · rw [if_pos hdiv]
      rw [natDigits_of_ne_zero (by omega), hdiv, natDigits_zero]
      simp
    · rw [if_neg hdiv]
      have hlt' : n / 10 < 10 ^ fuel := by
        rw [Nat.div_lt_iff_lt_mul (by norm_num)]
        rw [pow_succ] at hlt
        exact hlt
      rw [ih (n / 10) _ (Nat.pos_of_ne_zero hdiv) hlt']
      conv_rhs => rw [natDigits_of_ne_zero (show n ≠ 0 by omega)]
      simp

lemma natDigits_all_digits :
    ∀ n, ∀ c ∈ natDigits n, ∃ k, k < 10 ∧ c = Nat.digitChar k := by
  intro n
  induction n using Nat.strong_induction_on with
  | _ n ih =>
    intro c hc
    by_cases hn : n = 0
    · rw [hn, natDigits_zero] at hc
      exact absurd hc (List.not_mem_nil c)
    · rw [natDigits_of_ne_zero hn] at hc
      rcases List.mem_append.mp hc with hc | hc
      · exact ih (n / 10) (Nat.div_lt_self (Nat.pos_of_ne_zero hn) (by norm_num)) c hc
      · rw [List.mem_singleton] at hc
        exact ⟨n % 10, Nat.mod_lt n (by norm_num), hc⟩

lemma natDigits_inj : ∀ m n : Nat, natDigits m = natDigits n → m = n := by
  intro m
  induction m using Nat.strong_induction_on with
  | _ m ih =>
    intro n h
    by_cases hm : m = 0
    · rw [hm, natDigits_zero] at h
      rw [hm]
      exact (natDigits_eq_nil_iff.mp h.symm).symm
    · by_cases hn : n = 0
      · rw [hn, natDigits_zero] at h
        exact absurd h (natDigits_ne_nil hm)
      · rw [natDigits_of_ne_zero hm, natDigits_of_ne_zero hn] at h
        obtain ⟨htail, hhead⟩ := List.append_inj' h (by simp)
        have hmod : m % 10 = n % 10 :=
          digitChar_inj_lt (m % 10) (Nat.mod_lt m (by norm_num))
            (n % 10) (Nat.mod_lt n (by norm_num))
            (by simpa using hhead)
        have hdivlt : m / 10 < m := Nat.div_lt_self (Nat.pos_of_ne_zero hm) (by norm_num)
        have hdiv : m / 10 = n / 10 := ih (m / 10) hdivlt (n / 10) htail
        have h1 := Nat.div_add_mod m 10
        have h2 := Nat.div_add_mod n 10
        omega

lemma natRepr_of_ne_zero {n : Nat} (h : n ≠ 0) :
    Nat.repr n = (natDigits n).asString := by
  rw [Nat.repr, Nat.toDigits]
  rw [toDigitsCore_eq_natDigits (n + 1) n [] (Nat.pos_of_ne_zero h)
    (lt_of_lt_of_le (Nat.lt_pow_self (by norm_num) n)
      (Nat.pow_le_pow_right (by norm_num) (Nat.le_succ n)))]
  simp

lemma asString_inj {l l' : List Char} (h : l.asString = l'.asString) : l = l' := by
  have := congrArg String.data h
  simpa [List.asString] using this

lemma natRepr_inj : ∀ m n : Nat, Nat.repr m = Nat.repr n → m = n := by
  have hzero : ∀ n : Nat, n ≠ 0 → Nat.repr n ≠ "0" := by
    intro n hn hr
    rw [natRepr_of_ne_zero hn] at hr
    have hd := congrArg String.data hr
    simp only [List.asString] at hd
    rw [natDigits_of_ne_zero hn] at hd
    have : natDigits (n / 10) = [] ∧ Nat.digitChar (n % 10) = '0' := by
      rcases List.append_inj' (by simpa using hd : natDigits (n / 10) ++
        [Nat.digitChar (n % 10)] = [] ++ ['0']) (by simp) with ⟨h1, h2⟩
      exact ⟨h1, by simpa using h2⟩
    have hdiv := natDigits_eq_nil_iff.mp this.1
    have hmod : n % 10 = 0 :=
      digitChar_inj_lt (n % 10) (Nat.mod_lt n (by norm_num)) 0 (by norm_num)
        (by simpa using this.2)
    have := Nat.div_add_mod n 10
    omega
  intro m n h
  by_cases hm : m = 0
  · by_cases hn : n = 0
    · rw [hm, hn]
    · rw [hm] at h
      exact absurd h.symm (hzero n hn)
  · by_cases hn : n = 0
    · rw [hn] at h
      exact absurd h (hzero m hm)
    · rw [natRepr_of_ne_zero hm, natRepr_of_ne_zero hn] at h
      exact natDigits_inj m n (asString_inj h)

lemma digitChar_ne_dash : ∀ k < 10, Nat.digitChar k ≠ '-' := by
  decide

lemma natRepr_no_dash (n : Nat) : ∀ c ∈ (Nat.repr n).data, c ≠ '-' := by
  by_cases hn : n = 0
  · rw [hn]
    decide
  · rw [natRepr_of_ne_zero hn]
    intro c hc
    simp only [List.asString] at hc
    obtain ⟨k, hk, rfl⟩ := natDigits_all_digits n c hc
    exact digitChar_ne_dash k hk

lemma intToString_inj : ∀ m n : Int, toString m = toString n → m = n := by
  have hofNat : ∀ k : Nat, toString (Int.ofNat k) = Nat.repr k := fun k => rfl
  have hnegSucc : ∀ k : Nat,
      toString (Int.negSucc k) = "-" ++ Nat.repr (k + 1) := fun k => rfl
  have hmix : ∀ (a b : Nat), Nat.repr a ≠ "-" ++ Nat.repr (b + 1) := by
    intro a b h
    have hd := congrArg String.data h
    have hlen : 0 < (Nat.repr (b + 1)).data.length := by
      rw [natRepr_of_ne_zero (Nat.succ_ne_zero b)]
      simp only [List.asString]
      exact List.length_pos.mpr (natDigits_ne_nil (Nat.succ_ne_zero b))
    have hdash : '-' ∈ (Nat.repr a).data := by
      rw [hd]
      show '-' ∈ ['-'] ++ (Nat.repr (b + 1)).data
      simp
    exact natRepr_no_dash a '-' hdash rfl
  intro m n h
  cases m with
  | ofNat a =>
    cases n with
    | ofNat b =>
      rw [hofNat, hofNat] at h
      exact congrArg Int.ofNat (natRepr_inj a b h)
    | negSucc b =>
      rw [hofNat, hnegSucc] at h
      exact absurd h (hmix a b)
  | negSucc a =>
    cases n with
    | ofNat b =>
      rw [hnegSucc, hofNat] at h
      exact absurd h.symm (hmix b a)
    | negSucc b =>
      rw [hnegSucc, hnegSucc] at h
      have hd := congrArg String.data h
      simp only [String.data] at hd
      have htail : (Nat.repr (a + 1)).data = (Nat.repr (b + 1)).data := by
        have : '-' :: (Nat.repr (a + 1)).data = '-' :: (Nat.repr (b + 1)).data := by
          simpa using hd
        exact List.cons.injEq .. |>.mp this |>.2
      have hs := natRepr_inj (a + 1) (b + 1) (String.ext htail)
      have hab : a = b := by omega
      rw [hab]

lemma stepId_inj {a b : Int} (h : "step_" ++ toString a = "step_" ++ toString b) :
    a = b := by
  apply intToString_inj
  apply String.ext
  have hd := congrArg String.data h
  have : "step_".data ++ (toString a).data = "step_".data ++ (toString b).data := by
    simpa using hd
  exact List.append_cancel_left this

lemma mem_insertSortedTask (p q : Int × String) :
    ∀ l : List (Int × String), q ∈ insertSortedTask p l ↔ q = p ∨ q ∈ l := by
  intro l
  induction l with
  | nil => simp [insertSortedTask]
  | cons r rs ih =>
    rw [insertSortedTask]
    by_cases hle : p.1 ≤ r.1
    · rw [if_pos hle]
      simp
    · rw [if_neg hle]
      simp only [List.mem_cons, ih]
      tauto

lemma mem_sortTasks (tasks : List (Int × String)) (q : Int × String) :
    q ∈ sortTasks tasks ↔ q ∈ tasks := by
  induction tasks with
  | nil => simp [sortTasks]
  | cons p ps ih =>
    rw [sortTasks, List.foldr_cons]
    rw [mem_insertSortedTask]
    rw [show ps.foldr insertSortedTask [] = sortTasks ps from rfl, ih]
    simp

lemma validate_error_of_mk_error {md : WorkflowMetadata}
    {steps : List StepDefinition} {e : SchemaError}
    (h : mkWorkflowSchema md steps = Except.error e) :
    validate_step_dependencies steps = Except.error e := by
  unfold mkWorkflowSchema at h
  cases hv : validate_step_dependencies steps with
  | error e' =>
    rw [hv] at h
    injection h with h
    rw [h]
  | ok ss =>
    rw [hv] at h
    cases h

lemma create_workflow_error (registry : Registry) (tasks : List (Int × String))
    (workflow_name workflow_id description : Option String) (category : String)
    (hval : ∃ err, validate_step_dependencies
      ((sortTasks tasks).map (fun p => buildStep p.1 p.2)) = Except.error err) :
    ∃ e, create_workflow_from_tasks registry tasks workflow_name workflow_id
        description category = (Except.error e, registry) := by
  obtain ⟨err, herr⟩ := hval
  refine ⟨err, ?_⟩
  simp only [create_workflow_from_tasks, mkWorkflowSchema, herr]

/-- C10 counterexample: the task map with the single key 0 — whose keys are
not the contiguous sequence 1..n — nevertheless SUCCEEDS: step 0 gets no
default dependency (only steps numbered above 1 do), the graph validates, and
the workflow is recorded in the registry under a fresh id. -/
theorem noncontiguous_keys_can_succeed :
    ∃ wf, create_workflow_from_tasks [] [((0 : Int), "data input")] none none
        none "auto_generated" =
      (Except.ok "auto_workflow", [("auto_workflow", wf)]) :=
  ⟨{ metadata :=
       { id := "auto_workflow", name := "Auto Workflow",
         description := some "Auto-generated workflow for Auto Workflow",
         version := "1.0.0", author := some "Workflow Manager Auto-Generator",
         category := some "auto_generated" },
     steps :=
       [{ id := "step_0", name := "Data Input", type := StepType.form_input,
          description := some "Execute data input", depends_on := none,
          parameters := some [], llm_config := none,
          custom_handler := none }] },
   rfl⟩

/-- C10 amended: whenever some task key k > 1 has no key k − 1 in the map,
the default dependency `step_{k-1}` assigned to step k names no existing step,
so `create_workflow_from_tasks` fails with the construction error and returns
the registry unchanged — no workflow id is recorded.  (Key sets that merely
fail to be the contiguous sequence 1..n, such as {0}, do not in general make
the call fail: see the counterexample.) -/
theorem missing_predecessor_key_fails (registry : Registry)
    (tasks : List (Int × String))
    (workflow_name workflow_id description : Option String) (category : String)
    (hk : ∃ p ∈ tasks, p.1 > 1 ∧ ∀ q ∈ tasks, q.1 ≠ p.1 - 1) :
    ∃ e, create_workflow_from_tasks registry tasks workflow_name workflow_id
        description category = (Except.error e, registry) := by
  apply create_workflow_error
  obtain ⟨p, hp, hgt, habsent⟩ := hk
  have hmissing : ∃ s ∈ (sortTasks tasks).map (fun p => buildStep p.1 p.2),
      ∃ d ∈ s.depends_on.getD [],
        d ∉ ((sortTasks tasks).map (fun p => buildStep p.1 p.2)).map
          StepDefinition.id := by
    refine ⟨buildStep p.1 p.2, ?_, "step_" ++ toString (p.1 - 1), ?_, ?_⟩
    · exact List.mem_map.mpr ⟨p, (mem_sortTasks tasks p).mpr hp, rfl⟩
    · simp only [buildStep, if_pos hgt]
      simp
    · intro hmem
      rw [List.map_map, List.mem_map] at hmem
      obtain ⟨q, hq, hid⟩ := hmem
      have : q.1 = p.1 - 1 :=
        stepId_inj (show "step_" ++ toString q.1 =
          "step_" ++ toString (p.1 - 1) from hid)
      exact habsent q ((mem_sortTasks tasks q).mp hq) this
  obtain ⟨sid, d, hmk, _, _⟩ :=
    unknown_dependency_rejected { id := "x", name := "x" }
      ((sortTasks tasks).map (fun p => buildStep p.1 p.2)) hmissing
  exact ⟨SchemaError.unknownDependency sid d, validate_error_of_mk_error hmk⟩

/-- Witness for the amended C10 at the claim's example key set {1, 3}. -/
theorem missing_predecessor_key_fails_witness :
    ∃ e, create_workflow_from_tasks []
        [((1 : Int), "data input"), (3, "report generation")] none none none
        "auto_generated" = (Except.error e, []) :=
  missing_predecessor_key_fails [] _ none none none "auto_generated"
    ⟨(3, "report generation"), by decide, by decide, by decide⟩

deriving instance DecidableEq for Except

/-- JSON values, the target of the schema dump
(`json.dumps(workflow.model_dump())`). -/
inductive Json where
  | null : Json
  | bool : Bool → Json
  | int : Int → Json
  | str : String → Json
  | arr : List Json → Json
  | obj : List (String × Json) → Json

/-- Key lookup in a JSON object (first match). -/
def Json.getField : Json → String → Option Json
  | Json.obj kvs, k => kvs.findSome? (fun p => if p.1 = k then some p.2 else none)
  | _, _ => none

/-- String value of the `ParameterType` enum members. -/
def parameterType_str : ParameterType → String
  | ParameterType.string => "string"
  | ParameterType.number => "number"
  | ParameterType.boolean => "boolean"
  | ParameterType.file => "file"
  | ParameterType.select => "select"
  | ParameterType.multiselect => "multiselect"
  | ParameterType.textarea => "textarea"
  | ParameterType.json => "json"
  | ParameterType.date => "date"
  | ParameterType.url => "url"
  | ParameterType.email => "email"

/-- Modelled from the spec: parse of a `ParameterType` enum value string. -/
def parameterType_ofStr : String → Option ParameterType
  | "string" => some ParameterType.string
  | "number" => some ParameterType.number
  | "boolean" => some ParameterType.boolean
  | "file" => some ParameterType.file
  | "select" => some ParameterType.select
  | "multiselect" => some ParameterType.multiselect
  | "textarea" => some ParameterType.textarea
  | "json" => some ParameterType.json
  | "date" => some ParameterType.date
  | "url" => some ParameterType.url
  | "email" => some ParameterType.email
  | _ => none

/-- String value of the `StepType` enum members. -/
def stepType_str : StepType → String
  | StepType.form_input => "form_input"
  | StepType.llm_processing => "llm_processing"
  | StepType.file_processing => "file_processing"
  | StepType.http_request => "http_request"
  | StepType.data_transformation => "data_transformation"
  | StepType.code_execution => "code_execution"
  | StepType.output_generation => "output_generation"
  | StepType.conditional => "conditional"
  | StepType.loop => "loop"
  | StepType.parallel => "parallel"

/-- Modelled from the spec: parse of a `StepType` enum value string. -/
def stepType_ofStr : String → Option StepType
  | "form_input" => some StepType.form_input
  | "llm_processing" => some StepType.llm_processing
  | "file_processing" => some StepType.file_processing
  | "http_request" => some StepType.http_request
  | "data_transformation" => some StepType.data_transformation
  | "code_execution" => some StepType.code_execution
  | "output_generation" => some StepType.output_generation
  | "conditional" => some StepType.conditional
  | "loop" => some StepType.loop
  | "parallel" => some StepType.parallel
  | _ => none

/-- String value of the `ValidationRule.type` literals. -/
def ruleKind_str : RuleKind → String
  | RuleKind.required => "required"
  | RuleKind.min => "min"
  | RuleKind.max => "max"
  | RuleKind.pattern => "pattern"
  | RuleKind.custom => "custom"

/-- Modelled from the spec: parse of a rule-kind literal. -/
def ruleKind_ofStr : String → Option RuleKind
  | "required" => some RuleKind.required
  | "min" => some RuleKind.min
  | "max" => some RuleKind.max
  | "pattern" => some RuleKind.pattern
  | "custom" => some RuleKind.custom
  | _ => none

/-- String value of the `response_format` literals. -/
def responseFormat_str : ResponseFormat → String
  | ResponseFormat.text => "text"
  | ResponseFormat.json => "json"
  | ResponseFormat.structured => "structured"

/-- Modelled from the spec: parse of a `response_format` literal. -/
def responseFormat_ofStr : String → Option ResponseFormat
  | "text" => some ResponseFormat.text
  | "json" => some ResponseFormat.json
  | "structured" => some ResponseFormat.structured
  | _ => none

/-- String value of the `logging_level` literals. -/
def logLevel_str : LogLevel → String
  | LogLevel.debug => "DEBUG"
  | LogLevel.info => "INFO"
  | LogLevel.warning => "WARNING"
  | LogLevel.error => "ERROR"

/-- Modelled from the spec: parse of a `logging_level` literal. -/
def logLevel_ofStr : String → Option LogLevel
  | "DEBUG" => some LogLevel.debug
  | "INFO" => some LogLevel.info
  | "WARNING" => some LogLevel.warning
  | "ERROR" => some LogLevel.error
  | _ => none

/-- Optional string as JSON (`None` dumps to `null`). -/
def encodeOptStr : Option String → Json
  | none => Json.null
  | some s => Json.str s

/-- Modelled from the spec: parse an optional string field. -/
def decodeOptStr : Json → Option (Option String)
  | Json.null => some none
  | Json.str s => some (some s)
  | _ => none

/-- List of strings as JSON. -/
def encodeStrList (l : List String) : Json :=
  Json.arr (l.map Json.str)

/-- Modelled from the spec: parse a string from JSON. -/
def Json.asStr : Json → Option String
  | Json.str s => some s
  | _ => none

/-- Modelled from the spec: element-wise parse of a JSON array (fails if any
element fails). -/
def decodeList {α : Type} (dec : Json → Option α) : List Json → Option (List α)
  | [] => some []
  | j :: js => do
    let a ← dec j
    let as ← decodeList dec js
    pure (a :: as)

/-- Modelled from the spec: parse a list of strings. -/
def decodeStrList : Json → Option (List String)
  | Json.arr js => decodeList Json.asStr js
  | _ => none

/-- Optional list of strings as JSON. -/
def encodeOptStrList : Option (List String) → Json
  | none => Json.null
  | some l => encodeStrList l

/-- Modelled from the spec: parse an optional list of strings. -/
def decodeOptStrList : Json → Option (Option (List String))
  | Json.null => some none
  | j => (decodeStrList j).map some

/-- Modelled from the spec: parse a Boolean. -/
def Json.asBool : Json → Option Bool
  | Json.bool b => some b
  | _ => none

/-- Modelled from the spec: parse an integer. -/
def Json.asInt : Json → Option Int
  | Json.int n => some n
  | _ => none

/-- `ValidationRule.model_dump()`: the `value` union member dumps as itself. -/
def encodeValidationRule (r : ValidationRule) : Json :=
  Json.obj
    [("type", Json.str (ruleKind_str r.type)),
     ("value",
       match r.value with
       | none => Json.null
       | some (Sum.inl s) => Json.str s
       | some (Sum.inr n) => Json.int n),
     ("message", Json.str r.message)]

/-- Modelled from the spec: parse of a validation rule. -/
def decodeValidationRule (j : Json) : Option ValidationRule := do
  let ts ← (j.getField "type").bind Json.asStr
  let tk ← ruleKind_ofStr ts
  let v ←
    match j.getField "value" with
    | some Json.null => some none
    | some (Json.str s) => some (some (Sum.inl s))
    | some (Json.int n) => some (some (Sum.inr n))
    | _ => none
  let m ← (j.getField "message").bind Json.asStr
  pure { type := tk, value := v, message := m }

/-- `ParameterDefinition.model_dump()` over the modelled fields, in field
order. -/
def encodeParameterDefinition (p : ParameterDefinition) : Json :=
  Json.obj
    [("name", Json.str p.name),
     ("type", Json.str (parameterType_str p.type)),
     ("label", encodeOptStr p.label),
     ("description", encodeOptStr p.description),
     ("required", Json.bool p.required),
     ("default", encodeOptStr p.default),
     ("options", encodeOptStrList p.options),
     ("validation",
       match p.validation with
       | none => Json.null
       | some rs => Json.arr (rs.map encodeValidationRule)),
     ("placeholder", encodeOptStr p.placeholder),
     ("help_text", encodeOptStr p.help_text)]

/-- Modelled from the spec: parse of a parameter definition.  Mirroring
pydantic, the dumped `options` field is present (possibly `null`), so
`validate_options` runs on it: a select-family parameter with falsy options
fails to parse. -/
def decodeParameterDefinition (j : Json) : Option ParameterDefinition := do
  let name ← (j.getField "name").bind Json.asStr
  let ts ← (j.getField "type").bind Json.asStr
  let t ← parameterType_ofStr ts
  let label ← (j.getField "label").bind decodeOptStr
  let description ← (j.getField "description").bind decodeOptStr
  let required ← (j.getField "required").bind Json.asBool
  let dflt ← (j.getField "default").bind decodeOptStr
  let options ← (j.getField "options").bind decodeOptStrList
  let validation ←
    match j.getField "validation" with
    | some Json.null => some none
    | some (Json.arr js) => (decodeList decodeValidationRule js).map some
    | _ => none
  let placeholder ← (j.getField "placeholder").bind decodeOptStr
  let help ← (j.getField "help_text").bind decodeOptStr
  match validate_options t options with
  | Except.ok opts =>
    pure { name := name, type := t, label := label, description := description,
           required := required, default := dflt, options := opts,
           validation := validation, placeholder := placeholder,
           help_text := help }
  | Except.error _ => none

/-- `LLMConfiguration.model_dump()` over the modelled fields. -/
def encodeLLMConfiguration (c : LLMConfiguration) : Json :=
  Json.obj
    [("template_name", encodeOptStr c.template_name),
     ("system_prompt", encodeOptStr c.system_prompt),
     ("user_prompt_template", Json.str c.user_prompt_template),
     ("template_variables", encodeOptStrList c.template_variables),
     ("max_tokens",
       match c.max_tokens with
       | none => Json.null
       | some n => Json.int n),
     ("response_format",
       match c.response_format with
       | none => Json.null
       | some rf => Json.str (responseFormat_str rf))]

/-- Modelled from the spec: parse of an LLM configuration. -/
def decodeLLMConfiguration (j : Json) : Option LLMConfiguration := do
  let tn ← (j.getField "template_name").bind decodeOptStr
  let sp ← (j.getField "system_prompt").bind decodeOptStr
  let upt ← (j.getField "user_prompt_template").bind Json.asStr
  let tv ← (j.getField "template_variables").bind decodeOptStrList
  let mt ←
    match j.getField "max_tokens" with
    | some Json.null => some none
    | some (Json.int n) => some (some n)
    | _ => none
  let rf ←
    match j.getField "response_format" with
    | some Json.null => some none
    | some (Json.str s) => (responseFormat_ofStr s).map some
    | _ => none
  pure { template_name := tn, system_prompt := sp, user_prompt_template := upt,
         template_variables := tv, max_tokens := mt, response_format := rf }

/-- Optional LLM configuration as JSON. -/
def encodeOptLLM : Option LLMConfiguration → Json
  | none => Json.null
  | some c => encodeLLMConfiguration c

/-- Modelled from the spec: parse of an optional LLM configuration field. -/
def decodeOptLLM : Option Json → Option (Option LLMConfiguration)
  | some Json.null => some none
  | some jc => (decodeLLMConfiguration jc).map some
  | none => none

/-- `StepDefinition.model_dump()` over the modelled fields. -/
def encodeStepDefinition (s : StepDefinition) : Json :=
  Json.obj
    [("id", Json.str s.id),
     ("name", Json.str s.name),
     ("type", Json.str (stepType_str s.type)),
     ("description", encodeOptStr s.description),
     ("depends_on", encodeOptStrList s.depends_on),
     ("parameters",
       match s.parameters with
       | none => Json.null
       | some ps => Json.arr (ps.map encodeParameterDefinition)),
     ("llm_config", encodeOptLLM s.llm_config),
     ("custom_handler", encodeOptStr s.custom_handler)]

/-- Modelled from the spec: parse of a step definition. -/
def decodeStepDefinition (j : Json) : Option StepDefinition := do
  let id ← (j.getField "id").bind Json.asStr
  let nm ← (j.getField "name").bind Json.asStr
  let ts ← (j.getField "type").bind Json.asStr
  let t ← stepType_ofStr ts
  let ds ← (j.getField "description").bind decodeOptStr
  let dep ← (j.getField "depends_on").bind decodeOptStrList
  let ps ←
    match j.getField "parameters" with
    | some Json.null => some none
    | some (Json.arr js) => (decodeList decodeParameterDefinition js).map some
    | _ => none
  let lc ← decodeOptLLM (j.getField "llm_config")
  let ch ← (j.getField "custom_handler").bind decodeOptStr
  pure { id := id, name := nm, type := t, description := ds, depends_on := dep,
         parameters := ps, llm_config := lc, custom_handler := ch }

/-- `WorkflowMetadata.model_dump()`. -/
def encodeWorkflowMetadata (m : WorkflowMetadata) : Json :=
  Json.obj
    [("id", Json.str m.id),
     ("name", Json.str m.name),
     ("description", encodeOptStr m.description),
     ("version", Json.str m.version),
     ("author", encodeOptStr m.author),
     ("tags", encodeOptStrList m.tags),
     ("category", encodeOptStr m.category),
     ("icon", encodeOptStr m.icon),
     ("created_at", encodeOptStr m.created_at),
     ("updated_at", encodeOptStr m.updated_at)]

/-- Modelled from the spec: parse of workflow metadata. -/
def decodeWorkflowMetadata (j : Json) : Option WorkflowMetadata := do
  let id ← (j.getField "id").bind Json.asStr
  let nm ← (j.getField "name").bind Json.asStr
  let ds ← (j.getField "description").bind decodeOptStr
  let ver ← (j.getField "version").bind Json.asStr
  let au ← (j.getField "author").bind decodeOptStr
  let tg ← (j.getField "tags").bind decodeOptStrList
  let cat ← (j.getField "category").bind decodeOptStr
  let ic ← (j.getField "icon").bind decodeOptStr
  let ca ← (j.getField "created_at").bind decodeOptStr
  let ua ← (j.getField "updated_at").bind decodeOptStr
  pure { id := id, name := nm, description := ds, version := ver, author := au,
         tags := tg, category := cat, icon := ic, created_at := ca,
         updated_at := ua }

/-- `WorkflowConfiguration.model_dump()`. -/
def encodeWorkflowConfiguration (c : WorkflowConfiguration) : Json :=
  Json.obj
    [("parallel_execution", Json.bool c.parallel_execution),
     ("max_parallel_steps", Json.int c.max_parallel_steps),
     ("default_timeout", Json.int c.default_timeout),
     ("auto_advance", Json.bool c.auto_advance),
     ("save_intermediate_results", Json.bool c.save_intermediate_results),
     ("enable_rollback", Json.bool c.enable_rollback),
     ("logging_level", Json.str (logLevel_str c.logging_level))]

/-- Modelled from the spec: parse of a workflow configuration. -/
def decodeWorkflowConfiguration (j : Json) : Option WorkflowConfiguration := do
  let pe ← (j.getField "parallel_execution").bind Json.asBool
  let mp ← (j.getField "max_parallel_steps").bind Json.asInt
  let dt ← (j.getField "default_timeout").bind Json.asInt
  let aa ← (j.getField "auto_advance").bind Json.asBool
  let si ← (j.getField "save_intermediate_results").bind Json.asBool
  let er ← (j.getField "enable_rollback").bind Json.asBool
  let lls ← (j.getField "logging_level").bind Json.asStr
  let ll ← logLevel_ofStr lls
  pure { parallel_execution := pe, max_parallel_steps := mp,
         default_timeout := dt, auto_advance := aa,
         save_intermediate_results := si, enable_rollback := er,
         logging_level := ll }

/-- Optional workflow configuration as JSON. -/
def encodeOptConfig : Option WorkflowConfiguration → Json
  | none => Json.null
  | some c => encodeWorkflowConfiguration c

/-- Modelled from the spec: parse of an optional configuration field. -/
def decodeOptConfig : Option Json → Option (Option WorkflowConfiguration)
  | some Json.null => some none
  | some jc => (decodeWorkflowConfiguration jc).map some
  | none => none

/-- The schema dump `workflow.model_dump()` written by
`generate_workflow_files` as `{id}_schema.json`: top-level `metadata`,
`steps`, `configuration` and `global_parameters` sections, field-for-field
over the modelled fields. -/
def encodeWorkflowSchema (w : WorkflowSchema) : Json :=
  Json.obj
    [("metadata", encodeWorkflowMetadata w.metadata),
     ("steps", Json.arr (w.steps.map encodeStepDefinition)),
     ("configuration", encodeOptConfig w.configuration),
     ("global_parameters",
       match w.global_parameters with
       | none => Json.null
       | some ps => Json.arr (ps.map encodeParameterDefinition))]

/-- Modelled from the spec: the deserializer (`WorkflowSchema` parsed from the
schema dump, as pydantic would).  No deserializing code exists in the
repository sources; per §6 the dump must round-trip, and parsing re-runs the
construction validators: `validate_options` per parameter (inside
`decodeParameterDefinition`) and `validate_step_dependencies` on the step
list. -/
def decodeWorkflowSchema (j : Json) : Option WorkflowSchema := do
  let md ← (j.getField "metadata").bind decodeWorkflowMetadata
  let steps ←
    match j.getField "steps" with
    | some (Json.arr js) => decodeList decodeStepDefinition js
    | _ => none
  let cfg ← decodeOptConfig (j.getField "configuration")
  let gp ←
    match j.getField "global_parameters" with
    | some Json.null => some none
    | some (Json.arr js) => (decodeList decodeParameterDefinition js).map some
    | _ => none
  match validate_step_dependencies steps with
  | Except.ok ss =>
    pure { metadata := md, steps := ss, configuration := cfg,
           global_parameters := gp }
  | Except.error _ => none

lemma getField_cons (k k' : String) (v : Json) (kvs : List (String × Json)) :
    (Json.obj ((k, v) :: kvs)).getField k' =
      if k = k' then some v else (Json.obj kvs).getField k' := by
  by_cases h : k = k' <;> simp [Json.getField, List.findSome?_cons, h]

lemma decodeOptStr_encodeOptStr (o : Option String) :
    decodeOptStr (encodeOptStr o) = some o := by
  cases o <;> rfl

lemma parameterType_ofStr_str (t : ParameterType) :
    parameterType_ofStr (parameterType_str t) = some t := by
  cases t <;> rfl

lemma stepType_ofStr_str (t : StepType) :
    stepType_ofStr (stepType_str t) = some t := by
  cases t <;> rfl

lemma responseFormat_ofStr_str (t : ResponseFormat) :
    responseFormat_ofStr (responseFormat_str t) = some t := by
  cases t <;> rfl

lemma logLevel_ofStr_str (t : LogLevel) :
    logLevel_ofStr (logLevel_str t) = some t := by
  cases t <;> rfl

lemma decodeList_map_eq_some {α : Type} (enc : α → Json) (dec : Json → Option α) :
    ∀ l : List α, (∀ x ∈ l, dec (enc x) = some x) →
      decodeList dec (l.map enc) = some l := by
  intro l
  induction l with
  | nil => intro _; rfl
  | cons a as ih =>
    intro h
    rw [List.map_cons, decodeList, h a (List.mem_cons_self a as),
      ih (fun x hx => h x (List.mem_cons_of_mem a hx))]
    rfl

lemma decodeStrList_encodeStrList (l : List String) :
    decodeStrList (encodeStrList l) = some l := by
  show decodeList Json.asStr (l.map Json.str) = some l
  exact decodeList_map_eq_some Json.str Json.asStr l (fun x _ => rfl)

lemma decodeOptStrList_encodeOptStrList (o : Option (List String)) :
    decodeOptStrList (encodeOptStrList o) = some o := by
  cases o with
  | none => rfl
  | some l =>
    show (decodeStrList (encodeStrList l)).map some = some (some l)
    rw [decodeStrList_encodeStrList]
    rfl

lemma decodeValidationRule_encode (r : ValidationRule) :
    decodeValidationRule (encodeValidationRule r) = some r := by
  rcases r with ⟨t, v, m⟩
  cases t <;> rcases v with _ | (s | n) <;> rfl

lemma decodeParameterDefinition_encode (p : ParameterDefinition)
    (hval : validate_options p.type p.options = Except.ok p.options) :
    decodeParameterDefinition (encodeParameterDefinition p) = some p := by
  rcases p with ⟨n, t, l, ds, rq, df, o, vl, ph, hm⟩
  simp only [] at hval
  cases vl with
  | none =>
    simp [decodeParameterDefinition, encodeParameterDefinition, getField_cons,
      decodeOptStr_encodeOptStr, parameterType_ofStr_str,
      decodeOptStrList_encodeOptStrList, Json.asStr, Json.asBool, hval]
  | some rs =>
    simp [decodeParameterDefinition, encodeParameterDefinition, getField_cons,
      decodeOptStr_encodeOptStr, parameterType_ofStr_str,
      decodeOptStrList_encodeOptStrList, Json.asStr, Json.asBool, hval,
      decodeList_map_eq_some encodeValidationRule decodeValidationRule rs
        (fun x _ => decodeValidationRule_encode x)]

lemma decodeLLMConfiguration_encode (c : LLMConfiguration) :
    decodeLLMConfiguration (encodeLLMConfiguration c) = some c := by
  rcases c with ⟨tn, sp, upt, tv, mt, rf⟩
  cases mt <;> cases rf <;>
    simp [decodeLLMConfiguration, encodeLLMConfiguration, getField_cons,
      decodeOptStr_encodeOptStr, decodeOptStrList_encodeOptStrList,
      responseFormat_ofStr_str, Json.asStr]

lemma decodeOptLLM_encodeOptLLM (o : Option LLMConfiguration) :
    decodeOptLLM (some (encodeOptLLM o)) = some o := by
  cases o with
  | none => rfl
  | some c =>
    obtain ⟨kvs, hk⟩ : ∃ kvs, encodeLLMConfiguration c = Json.obj kvs := ⟨_, rfl⟩
    show decodeOptLLM (some (encodeLLMConfiguration c)) = some (some c)
    rw [hk]
    show (decodeLLMConfiguration (Json.obj kvs)).map some = some (some c)
    rw [← hk, decodeLLMConfiguration_encode]
    rfl

lemma decodeStepDefinition_encode (s : StepDefinition)
    (hps : ∀ p ∈ s.parameters.getD [],
      validate_options p.type p.options = Except.ok p.options) :
    decodeStepDefinition (encodeStepDefinition s) = some s := by
  rcases s with ⟨id, nm, t, ds, dep, ps, lc, ch⟩
  simp only [] at hps
  cases ps with
  | none =>
    simp [decodeStepDefinition, encodeStepDefinition, getField_cons,
      decodeOptStr_encodeOptStr, decodeOptStrList_encodeOptStrList,
      stepType_ofStr_str, Json.asStr, decodeOptLLM_encodeOptLLM]
  | some params =>
    have hdec := decodeList_map_eq_some encodeParameterDefinition
      decodeParameterDefinition params
      (fun p hp => decodeParameterDefinition_encode p (hps p (by simpa using hp)))
    simp [decodeStepDefinition, encodeStepDefinition, getField_cons,
      decodeOptStr_encodeOptStr, decodeOptStrList_encodeOptStrList,
      stepType_ofStr_str, Json.asStr, hdec, decodeOptLLM_encodeOptLLM]

lemma decodeWorkflowMetadata_encode (m : WorkflowMetadata) :
    decodeWorkflowMetadata (encodeWorkflowMetadata m) = some m := by
  simp [decodeWorkflowMetadata, encodeWorkflowMetadata, getField_cons,
    decodeOptStr_encodeOptStr, decodeOptStrList_encodeOptStrList, Json.asStr]

lemma decodeWorkflowConfiguration_encode (c : WorkflowConfiguration) :
    decodeWorkflowConfiguration (encodeWorkflowConfiguration c) = some c := by
  simp [decodeWorkflowConfiguration, encodeWorkflowConfiguration, getField_cons,
    Json.asBool, Json.asInt, Json.asStr, logLevel_ofStr_str]

/-- C9: for every workflow graph satisfying its construction invariants
(every parameter passes `validate_options`, the step list passes
`validate_step_dependencies`), deserializing the schema dump reproduces a
graph equal to the original in every modelled field — same metadata, same
steps in the same order with the same parameters, same configuration and
global parameters — and with the same (successful) validation outcome, the
re-run validators included in the deserializer having passed. -/
theorem schema_dump_roundtrip (w : WorkflowSchema)
    (hparams : ∀ s ∈ w.steps, ∀ p ∈ s.parameters.getD [],
      validate_options p.type p.options = Except.ok p.options)
    (hglobal : ∀ p ∈ w.global_parameters.getD [],
      validate_options p.type p.options = Except.ok p.options)
    (hdeps : validate_step_dependencies w.steps = Except.ok w.steps) :
    decodeWorkflowSchema (encodeWorkflowSchema w) = some w := by
  rcases w with ⟨md, steps, cfg, gps⟩
  simp only [] at hparams hglobal hdeps
  have hsteps := decodeList_map_eq_some encodeStepDefinition
    decodeStepDefinition steps
    (fun s hs => decodeStepDefinition_encode s (hparams s hs))
  have hcfg : decodeOptConfig (some (encodeOptConfig cfg)) = some cfg := by
    cases cfg with
    | none => rfl
    | some c =>
      obtain ⟨kvs, hk⟩ : ∃ kvs, encodeWorkflowConfiguration c = Json.obj kvs :=
        ⟨_, rfl⟩
      show decodeOptConfig (some (encodeWorkflowConfiguration c)) = some (some c)
      rw [hk]
      show (decodeWorkflowConfiguration (Json.obj kvs)).map some = some (some c)
      rw [← hk, decodeWorkflowConfiguration_encode]
      rfl
  cases gps with
  | none =>
    simp [decodeWorkflowSchema, encodeWorkflowSchema, getField_cons,
      decodeWorkflowMetadata_encode, hsteps, hdeps, hcfg]
  | some gp =>
    have hgp := decodeList_map_eq_some encodeParameterDefinition
      decodeParameterDefinition gp
      (fun p hp => decodeParameterDefinition_encode p (hglobal p (by simpa using hp)))
    simp [decodeWorkflowSchema, encodeWorkflowSchema, getField_cons,
      decodeWorkflowMetadata_encode, hsteps, hdeps, hgp, hcfg]

/-- A workflow exercising every modelled field (select parameter with
options, validation rules, LLM configuration, dependency, configuration and
global parameters), for the C9 witness. -/
def witRoundtrip : WorkflowSchema :=
  { metadata :=
      { id := "wf_rt", name := "Roundtrip Demo",
        description := some "exercise all fields", version := "2.1.0",
        author := some "tester", tags := some ["a", "b"],
        category := some "demo", icon := some "gear",
        created_at := some "2024-01-01", updated_at := some "2024-01-02" },
    steps :=
      [{ id := "s1", name := "Input", type := StepType.form_input,
         description := some "first",
         parameters :=
           some [{ name := "data_file", type := ParameterType.file,
                   required := true,
                   validation :=
                     some [{ type := RuleKind.required,
                             value := some (Sum.inr 3),
                             message := "required" },
                           { type := RuleKind.pattern,
                             value := some (Sum.inl "x+"),
                             message := "pattern" }] }] },
       { id := "s2", name := "Analyze", type := StepType.llm_processing,
         depends_on := some ["s1"],
         parameters := some [llmProviderParam],
         llm_config :=
           some { template_name := some "t",
                  system_prompt := some "sys",
                  user_prompt_template := "do it",
                  template_variables := some ["input_data"],
                  max_tokens := some 512,
                  response_format := some ResponseFormat.structured },
         custom_handler := some "handle_analyze" }],
    configuration :=
      some { parallel_execution := true, max_parallel_steps := 5,
             default_timeout := 60, auto_advance := false,
             save_intermediate_results := false, enable_rollback := true,
             logging_level := LogLevel.warning },
    global_parameters :=
      some [{ name := "mode", type := ParameterType.multiselect,
              options := some ["fast", "slow"] }] }

/-- Witness for C9 at a concrete fully-populated workflow. -/
theorem schema_dump_roundtrip_witness :
    decodeWorkflowSchema (encodeWorkflowSchema witRoundtrip) =
      some witRoundtrip :=
  schema_dump_roundtrip witRoundtrip (by decide) (by decide) (by rfl)
